import Mathlib

/-!
Verification of the `rocksdb-fileformat` crate (SST block/footer codec).

Shallow embedding conventions:
* Rust byte slices / `Vec<u8>` are `List Nat` whose elements are byte values;
  all bytes produced by the embedded encoders are `< 256` by construction.
* `u32` / `u64` arithmetic is `Nat` with explicit `% 2^32` / `% 2^64` at the
  points where the Rust code casts or wraps.
* Fallible Rust functions (`Result<T>`) become `Except Err T`; `assert!` and
  `panic!` (which abort the Rust process) are modelled as the `Err.panicked`
  outcome so that they are observable.
-/

namespace RocksDbFF

/-- `x as u32` -/
def u32Mod (n : Nat) : Nat := n % 4294967296

/-- `x as u64` (wrapping 64-bit arithmetic). -/
def u64Mod (n : Nat) : Nat := n % 18446744073709551616

/-- Little-endian byte encoding of a `u32` (`to_le_bytes` / `write_u32::<LittleEndian>`). -/
def u32LE (n : Nat) : List Nat :=
  [n % 256, n / 256 % 256, n / 65536 % 256, n / 16777216 % 256]

/-- Little-endian byte encoding of a `u64`. -/
def u64LE (n : Nat) : List Nat :=
  [n % 256, n / 256 % 256, n / 65536 % 256, n / 16777216 % 256,
   n / 4294967296 % 256, n / 1099511627776 % 256,
   n / 281474976710656 % 256, n / 72057594037927936 % 256]

/-- Read a little-endian `u32` at position `pos` of a byte list
(`read_u32::<LittleEndian>`; every call site in the source checks bounds first,
so the out-of-range default is never observable). -/
def readU32LE (data : List Nat) (pos : Nat) : Nat :=
  data.getD pos 0 + data.getD (pos + 1) 0 * 256 +
  data.getD (pos + 2) 0 * 65536 + data.getD (pos + 3) 0 * 16777216

/-- Read a little-endian `u64` at position `pos` of a byte list. -/
def readU64LE (data : List Nat) (pos : Nat) : Nat :=
  readU32LE data pos + readU32LE data (pos + 4) * 4294967296

/-- LEB128 varint encoding loop shared by `encode_varint` (u32, block_builder.rs)
and `write_varint64` (block_handle.rs): both emit
`while value >= 0x80 { push(value & 0x7F | 0x80); value >>= 7 }; push(value)`.
Call sites pass the value after the source's integer cast. -/
def encVarintGo : Nat → Nat → List Nat
  | _, 0 => [0]
  | n, fuel + 1 =>
    if n < 128 then [n] else (n % 128 + 128) :: encVarintGo (n / 128) fuel

/-- The encoding loop itself; the fuel `n` always suffices, since the value
shrinks by a factor of 128 per emitted byte (see `encVarint_unfold`). -/
def encVarint (n : Nat) : List Nat := encVarintGo n n

/-- Length of the shared prefix scan in `DataBlockBuilder::add` /
`IndexBlockBuilder::add_index_entry`. -/
def commonPrefixLen : List Nat → List Nat → Nat
  | a :: as, b :: bs => if a = b then commonPrefixLen as bs + 1 else 0
  | _, _ => 0

/-- Mirror of `error::Error` (the variants reachable from the embedded code).
`panicked` stands for a Rust `assert!`/`panic!` abort. -/
inductive Err where
  | invalidMagicNumber (m : Nat)
  | invalidFooterSize (n : Nat)
  | invalidBlockHandle (msg : String)
  | unsupportedCompressionType (t : Nat)
  | unsupported (msg : String)
  | unsupportedChecksumType (t : Nat)
  | unsupportedFormatVersion (v : Nat)
  | invalidVarint
  | dataCorruption (msg : String)
  | invalidBlockFormat (msg : String)
  | fileTooSmall
  | invalidArgument (msg : String)
  | panicked (msg : String)
deriving DecidableEq, Repr

deriving instance DecidableEq for Except

/-- `types::ChecksumType`. -/
inductive ChecksumType where
  | none
  | crc32c
  | hash
  | hash64
  | xxh3
deriving DecidableEq, Repr

/-- `ChecksumType as u8` (the enum discriminants). -/
def ChecksumType.tag : ChecksumType → Nat
  | .none => 0
  | .crc32c => 1
  | .hash => 2
  | .hash64 => 3
  | .xxh3 => 4

/-- `TryFrom<u8> for ChecksumType`. -/
def ChecksumType.tryFrom (value : Nat) : Except Err ChecksumType :=
  match value with
  | 0 => .ok .none
  | 1 => .ok .crc32c
  | 2 => .ok .hash
  | 3 => .ok .hash64
  | 4 => .ok .xxh3
  | _ => .error (.unsupportedChecksumType value)

/-- `types::CompressionType`. -/
inductive CompressionType where
  | none
  | snappy
  | zlib
  | bzip2
  | lz4
  | lz4hc
  | xpress
  | zstd
deriving DecidableEq, Repr

/-- `CompressionType as u8`. -/
def CompressionType.tag : CompressionType → Nat
  | .none => 0
  | .snappy => 1
  | .zlib => 2
  | .bzip2 => 3
  | .lz4 => 4
  | .lz4hc => 5
  | .xpress => 6
  | .zstd => 7

/-- One bit-step of the standard (reflected) CRC-32C polynomial division. -/
def crc32cStep (c : Nat) : Nat :=
  if c % 2 = 1 then (c / 2) ^^^ 0x82F63B78 else c / 2

/-- Modelled from the spec: the base CRC-32C digest comes from the external
`crc32c` crate, which is not part of this repository; the spec (§4.2) calls it
"standard CRC32c", embedded here as the standard reflected CRC-32C
(Castagnoli) computation. -/
def crc32c (data : List Nat) : Nat :=
  (data.foldl (fun c b => crc32cStep^[8] (c ^^^ b % 256)) 0xFFFFFFFF) ^^^ 0xFFFFFFFF

/-- Modelled from the spec: the XXH32 kernel comes from the external
`xxhash_rust` crate, not from this repository; the spec uses it only as a
deterministic 32-bit digest of the input bytes and seed, which this
deterministic stand-in provides. -/
def xxh32 (data : List Nat) (seed : Nat) : Nat :=
  u32Mod (data.foldl (fun a b => u32Mod (a * 33 + b % 256 + 0x9E3779B1)) (seed + 0x165667B1))

/-- Modelled from the spec: the XXH64 kernel comes from the external
`xxhash_rust` crate, not from this repository; a deterministic 64-bit digest
stand-in. -/
def xxh64 (data : List Nat) (seed : Nat) : Nat :=
  u64Mod (data.foldl (fun a b => u64Mod (a * 131 + b % 256 + 0x9E3779B97F4A7C15)) (seed + 0x27D4EB2F165667C5))

/-- Modelled from the spec: the XXH3-64 kernel comes from the external
`xxhash_rust` crate, not from this repository; a deterministic 64-bit digest
stand-in. -/
def xxh3_64 (data : List Nat) : Nat :=
  u64Mod (data.foldl (fun a b => u64Mod (a * 193 + b % 256 + 0x9FB21C651E98DF25)) 0x1CAD21F72C81017C)

/-- `ChecksumType::calculate` (types.rs): the RocksDB-flavoured digest
dispatch, including the CRC32c mask rotation and the XXH3
modify-checksum-for-last-byte step. -/
def ChecksumType.calculate : ChecksumType → List Nat → Nat
  | .none, _ => 0
  | .crc32c, data =>
      let crc := RocksDbFF.crc32c data
      u32Mod ((crc / 32768 ||| u32Mod (crc * 131072)) + 0xa282ead8)
  | .hash, data => xxh32 data 0
  | .hash64, data => u64Mod (xxh64 data 0) % 4294967296
  | .xxh3, data =>
      if data.isEmpty then 0
      else
        let v := xxh3_64 (data.dropLast) % 4294967296
        v ^^^ u32Mod (data.getLast! % 256 * 0x6b9083d9)

/-- Modelled from the spec: `checksum_modifier_for_context` is imported by
footer.rs and block_builder.rs from `types`, but the revision of types.rs in
this repository does not contain it.  Per spec §4.2 it is a deterministic,
position-dependent, wrap-add mixing `f(base_context_checksum, file_offset)`
producing a `u32`; any such function settles the claims below, so a concrete
deterministic mixing is used. -/
def checksum_modifier_for_context (baseContextChecksum : Nat) (fileOffset : Nat) : Nat :=
  u32Mod (baseContextChecksum + fileOffset % 4294967296 + fileOffset / 4294967296 * 3)

/-- Additional error used where Rust surfaces an `std::io` failure
(e.g. a cursor read past the end of its slice). -/
def Err.ioError (msg : String) : Err := Err.dataCorruption msg

/-- `block_handle::BlockHandle` (offset and size are `u64` values). -/
structure BlockHandle where
  offset : Nat
  size : Nat
deriving DecidableEq, Repr

/-- `BlockHandle::null`. -/
def BlockHandle.null : BlockHandle := ⟨0, 0⟩

/-- The body of `read_varint64` (block_handle.rs): a `for _ in 0..10` loop,
reading one byte per iteration; returns the decoded value and the position
after the last byte read. -/
def readVarint64Go (data : List Nat) (pos shift acc : Nat) : Nat → Except Err (Nat × Nat)
  | 0 => .error .invalidVarint
  | fuel + 1 =>
    if pos < data.length then
      let byte := data.getD pos 0 % 256
      if byte / 128 % 2 = 0 then
        .ok (acc ||| u64Mod (byte <<< shift), pos + 1)
      else
        readVarint64Go data (pos + 1) (shift + 7) (acc ||| u64Mod ((byte % 128) <<< shift)) fuel
    else .error (.ioError "read_u8 past end of slice")

/-- `read_varint64` (block_handle.rs). -/
def readVarint64 (data : List Nat) (pos : Nat) : Except Err (Nat × Nat) :=
  readVarint64Go data pos 0 0 10

/-- `write_varint64` (block_handle.rs); the loop is `encVarint`. -/
def writeVarint64 (value : Nat) : List Nat := encVarint value

/-- `BlockHandle::decode_from`, returning the handle and the position after it. -/
def BlockHandle.decodeFrom (data : List Nat) (pos : Nat) : Except Err (BlockHandle × Nat) := do
  let (offset, pos) ← readVarint64 data pos
  let (size, pos) ← readVarint64 data pos
  .ok (⟨offset, size⟩, pos)

/-- `BlockHandle::encode_to` / `encode_to_bytes`. -/
def BlockHandle.encode_to (h : BlockHandle) : List Nat :=
  writeVarint64 h.offset ++ writeVarint64 h.size

/-- Modelled from the spec: the Snappy/Zlib/LZ4/ZSTD codec kernels come from
external crates (`snap`, `flate2`, `lz4`, `zstd`), not from this repository.
The spec relies only on `decompress (compress x) = x` (§8 property 2), which
the identity stand-ins satisfy; no claim below exercises a non-`None` codec. -/
def snappyKernel (data : List Nat) : List Nat := data

/-- Modelled from the spec: see `snappyKernel`. -/
def zlibKernel (data : List Nat) : List Nat := data

/-- Modelled from the spec: see `snappyKernel`. -/
def lz4Kernel (data : List Nat) : List Nat := data

/-- Modelled from the spec: see `snappyKernel`. -/
def zstdKernel (data : List Nat) : List Nat := data

/-- `compression::compress`: `None` copies; LZ4 prepends the 4-byte
little-endian uncompressed length; unsupported tags error. -/
def compress (data : List Nat) : CompressionType → Except Err (List Nat)
  | .none => .ok data
  | .snappy => .ok (snappyKernel data)
  | .zlib => .ok (zlibKernel data)
  | .lz4 => .ok (u32LE (u32Mod data.length) ++ lz4Kernel data)
  | .zstd => .ok (zstdKernel data)
  | t => .error (.unsupportedCompressionType t.tag)

/-- `compression::decompress` (inverse of `compress` for the modelled kernels). -/
def decompress (data : List Nat) : CompressionType → Except Err (List Nat)
  | .none => .ok data
  | .snappy => .ok (snappyKernel data)
  | .zlib => .ok (zlibKernel data)
  | .lz4 => .ok (lz4Kernel (data.drop 4))
  | .zstd => .ok (zstdKernel data)
  | t => .error (.unsupportedCompressionType t.tag)

/-- `block_builder::DataBlockBuilder` state.  The source's
`DataBlockBuilderOptions` contributes only `restart_interval` to the
builder's behaviour, kept here as the `restartInterval` field. -/
structure DataBlockBuilder where
  buffer : List Nat
  restarts : List Nat
  counter : Nat
  restartInterval : Nat
  lastKey : List Nat
  finished : Bool
deriving DecidableEq, Repr

/-- `DataBlockBuilder::new`: empty buffer with one restart point at 0. -/
def DataBlockBuilder.new (restartInterval : Nat) : DataBlockBuilder :=
  ⟨[], [0], 0, restartInterval, [], false⟩

/-- `DataBlockBuilder::add`.  The three `assert!`s at the top abort the Rust
process when violated; that outcome is `none`.  Integer casts (`as u32`) are
kept as `u32Mod`. -/
def DataBlockBuilder.add (b : DataBlockBuilder) (key value : List Nat) :
    Option DataBlockBuilder :=
  if b.finished then none
  else if ¬ b.counter ≤ b.restartInterval then none
  else if ¬ b.buffer.length < 4294967295 then none
  else
    let (shared, restarts, counter) :=
      if b.counter < b.restartInterval then
        (commonPrefixLen b.lastKey key, b.restarts, b.counter)
      else
        (0, b.restarts ++ [u32Mod b.buffer.length], 0)
    let nonShared := key.length - shared
    some { buffer := b.buffer ++ encVarint (u32Mod shared) ++ encVarint (u32Mod nonShared) ++
             encVarint (u32Mod value.length) ++ key.drop shared ++ value,
           restarts := restarts, counter := counter + 1,
           restartInterval := b.restartInterval, lastKey := key, finished := false }

/-- The payload assembled by `DataBlockBuilder::finish` before the trailer:
entry bytes, the restart array (little-endian u32s) and the restart count. -/
def DataBlockBuilder.finishPayload (b : DataBlockBuilder) : List Nat :=
  b.buffer ++ (b.restarts.map u32LE).flatten ++ u32LE (u32Mod b.restarts.length)

/-- The trailer checksum computation shared by both builders' `finish`:
`checksum_type.calculate(bytes ++ [tag])`, plus the context modifier when both
`file_offset` and `base_context_checksum` are present. -/
def blockTrailerChecksum (checksumType : ChecksumType) (compressionType : CompressionType)
    (fileOffset baseContextChecksum : Option Nat) (bytes : List Nat) : Nat :=
  let c := checksumType.calculate (bytes ++ [compressionType.tag])
  match fileOffset, baseContextChecksum with
  | some offset, some baseChecksum => u32Mod (c + checksum_modifier_for_context baseChecksum offset)
  | _, _ => c

/-- `DataBlockBuilder::finish`.  A second call panics (`Err.panicked`). -/
def DataBlockBuilder.finish (b : DataBlockBuilder) (compressionType : CompressionType)
    (checksumType : ChecksumType) (fileOffset baseContextChecksum : Option Nat) :
    Except Err (List Nat) :=
  if b.finished then .error (.panicked "DataBlockBuilder already finished")
  else
    let buffer := b.finishPayload
    if compressionType = .none then
      let checksum := blockTrailerChecksum checksumType compressionType
        fileOffset baseContextChecksum buffer
      .ok (buffer ++ [compressionType.tag] ++ u32LE checksum)
    else
      match compress buffer compressionType with
      | .error e => .error e
      | .ok compressedData =>
        let compressedChecksum := blockTrailerChecksum checksumType compressionType
          fileOffset baseContextChecksum compressedData
        .ok (compressedData ++ [compressionType.tag] ++ u32LE compressedChecksum)

/-- `DataBlockBuilder::reset`. -/
def DataBlockBuilder.reset (b : DataBlockBuilder) : DataBlockBuilder :=
  ⟨[], [0], 0, b.restartInterval, [], false⟩

/-- `DataBlockBuilder::empty`. -/
def DataBlockBuilder.empty (b : DataBlockBuilder) : Bool := b.buffer.isEmpty

/-- `DataBlockBuilder::size_estimate`. -/
def DataBlockBuilder.sizeEstimate (b : DataBlockBuilder) : Nat :=
  b.buffer.length + 4 * b.restarts.length + 4 + 5

/-- `block_builder::IndexBlockBuilder` state. -/
structure IndexBlockBuilder where
  buffer : List Nat
  restarts : List Nat
  counter : Nat
  restartInterval : Nat
  lastKey : List Nat
  finished : Bool
deriving DecidableEq, Repr

/-- `IndexBlockBuilder::new`. -/
def IndexBlockBuilder.new (restartInterval : Nat) : IndexBlockBuilder :=
  ⟨[], [0], 0, restartInterval, [], false⟩

/-- The value bytes `IndexBlockBuilder::add_index_entry` builds for a handle:
note the source passes `block_handle.offset as u32` and
`block_handle.size as u32` to its u32 varint encoder. -/
def IndexBlockBuilder.handleData (blockHandle : BlockHandle) : List Nat :=
  encVarint (u32Mod blockHandle.offset) ++ encVarint (u32Mod blockHandle.size)

/-- `IndexBlockBuilder::add_index_entry` (asserts modelled as `none`). -/
def IndexBlockBuilder.addIndexEntry (b : IndexBlockBuilder) (key : List Nat)
    (blockHandle : BlockHandle) : Option IndexBlockBuilder :=
  if b.finished then none
  else if ¬ b.counter ≤ b.restartInterval then none
  else if ¬ b.buffer.length < 4294967295 then none
  else
    let (shared, restarts, counter) :=
      if b.counter < b.restartInterval then
        (commonPrefixLen b.lastKey key, b.restarts, b.counter)
      else
        (0, b.restarts ++ [u32Mod b.buffer.length], 0)
    let nonShared := key.length - shared
    let handleData := IndexBlockBuilder.handleData blockHandle
    some { buffer := b.buffer ++ encVarint (u32Mod shared) ++ encVarint (u32Mod nonShared) ++
             encVarint (u32Mod handleData.length) ++ key.drop shared ++ handleData,
           restarts := restarts, counter := counter + 1,
           restartInterval := b.restartInterval, lastKey := key, finished := false }

/-- `IndexBlockBuilder::finish` (same body as `DataBlockBuilder::finish`). -/
def IndexBlockBuilder.finish (b : IndexBlockBuilder) (compressionType : CompressionType)
    (checksumType : ChecksumType) (fileOffset baseContextChecksum : Option Nat) :
    Except Err (List Nat) :=
  if b.finished then .error (.panicked "IndexBlockBuilder already finished")
  else
    let buffer := b.buffer ++ (b.restarts.map u32LE).flatten ++ u32LE (u32Mod b.restarts.length)
    if compressionType = .none then
      let checksum := blockTrailerChecksum checksumType compressionType
        fileOffset baseContextChecksum buffer
      .ok (buffer ++ [compressionType.tag] ++ u32LE checksum)
    else
      match compress buffer compressionType with
      | .error e => .error e
      | .ok compressedData =>
        let compressedChecksum := blockTrailerChecksum checksumType compressionType
          fileOffset baseContextChecksum compressedData
        .ok (compressedData ++ [compressionType.tag] ++ u32LE compressedChecksum)

/-- `IndexBlockBuilder::empty`. -/
def IndexBlockBuilder.empty (b : IndexBlockBuilder) : Bool := b.buffer.isEmpty

/-- Parsed block state (`data_block::DataBlock`). -/
structure DataBlock where
  data : List Nat
  restartOffset : Nat
  numRestarts : Nat
  restartPoints : List Nat
deriving DecidableEq, Repr

/-- `DataBlock::read_varint` (also the identical `IndexBlock::read_varint` /
`read_varint_from_slice`): LEB128 u32 decoding with the `shift >= 32` guard;
returns the value and the position after it.  Shifted contributions wrap at
32 bits, as Rust `u32` shifts do. -/
def readVarint32F (data : List Nat) : Nat → Nat → Nat → Nat → Except Err (Nat × Nat)
  | _, _, _, 0 => .error .invalidVarint
  | pos, shift, acc, fuel + 1 =>
    if h : pos < data.length then
      let byte := data.getD pos 0 % 256
      let acc := acc ||| u32Mod ((byte % 128) <<< shift)
      if byte / 128 % 2 = 0 then .ok (acc, pos + 1)
      else if h32 : 32 ≤ shift + 7 then .error .invalidVarint
      else readVarint32F data (pos + 1) (shift + 7) acc fuel
    else .error .invalidVarint

/-- The loop entry point; `data.length - pos` bounds the iteration count
exactly, since each iteration consumes one byte (see
`readVarint32Go_unfold` for the recursive equation matching the source). -/
def readVarint32Go (data : List Nat) (pos shift acc : Nat) : Except Err (Nat × Nat) :=
  readVarint32F data pos shift acc (data.length - pos)

/-- `DataBlock::read_varint` starting with zero accumulator. -/
def readVarint32 (data : List Nat) (pos : Nat) : Except Err (Nat × Nat) :=
  readVarint32Go data pos 0 0

/-- `DataBlock::new` (compression handling, trailer strip, restart-table
validation).  All cursor reads are bounds-checked by the preceding length
tests, so plain indexed reads are used. -/
def DataBlock.new (compressedData : List Nat) (compressionType : CompressionType) :
    Except Err DataBlock := do
  let rawData ← decompress compressedData compressionType
  let data := if 5 ≤ rawData.length then rawData.take (rawData.length - 5) else rawData
  if data.length < 4 then
    .error (.invalidBlockFormat "Block too small to contain restart info")
  else
  let numRestarts := readU32LE data (data.length - 4)
  if numRestarts = 0 then .error (.invalidBlockFormat "No restart points")
  else if data.length < 4 + numRestarts * 4 then
    .error (.invalidBlockFormat "Data block too small to contain restart points")
  else
  let restartOffset := data.length - 4 - numRestarts * 4
  if data.length ≤ restartOffset then
    .error (.invalidBlockFormat "Invalid restart offset")
  else
  .ok ⟨data, restartOffset, numRestarts,
       (List.range numRestarts).map fun i => readU32LE data (restartOffset + 4 * i)⟩

/-- `DataBlock::is_restart_point`. -/
def DataBlock.isRestartPoint (blk : DataBlock) (offset : Nat) : Bool :=
  blk.restartPoints.contains offset

/-- The `if unshared_key_len > 0 { .. }` step of `DataBlock::get_entries`:
bounds-check, then extend `key` with the unshared suffix and advance the
cursor. -/
def DataBlock.keyStep (data keyStart : List Nat) (pos n : Nat) :
    Except Err (List Nat × Nat) :=
  if 0 < n then
    if data.length < pos + n then
      Except.error (.invalidBlockFormat "Key extends beyond block")
    else Except.ok (keyStart ++ (data.drop pos).take n, pos + n)
  else Except.ok (keyStart, pos)

/-- The `if value_len > 0 { .. }` step of `DataBlock::get_entries`:
bounds-check, then read the value bytes and advance the cursor. -/
def DataBlock.valueStep (data : List Nat) (pos n : Nat) :
    Except Err (List Nat × Nat) :=
  if 0 < n then
    if data.length < pos + n then
      Except.error (.invalidBlockFormat "Value extends beyond block")
    else Except.ok ((data.drop pos).take n, pos + n)
  else Except.ok (([] : List Nat), pos)

/-- The body of the `DataBlock::get_entries` loop.  One fuel unit per
iteration; each iteration advances the cursor by at least three bytes, so the
fuel passed by `DataBlock.getEntries` can never run out and the `panicked`
case is unreachable.  Note the restart check clears `last_key` BEFORE the
entry is decoded. -/
def DataBlock.getEntriesGo (blk : DataBlock) :
    Nat → Nat → List Nat → Except Err (List (List Nat × List Nat))
  | fuel, pos, lastKey =>
    if pos < blk.restartOffset then
      match fuel with
      | 0 => .error (.panicked "unreachable: out of fuel")
      | fuel + 1 => do
        let entryStart := pos
        let lastKey := if blk.isRestartPoint (u32Mod entryStart) then [] else lastKey
        let (sharedKeyLen, pos) ← readVarint32 blk.data pos
        let (unsharedKeyLen, pos) ← readVarint32 blk.data pos
        let (valueLen, pos) ← readVarint32 blk.data pos
        if u32Mod lastKey.length < sharedKeyLen then
          .error (.invalidBlockFormat "Shared key length exceeds previous key length")
        else do
        let keyStart := lastKey.take sharedKeyLen
        let (key, pos) ← DataBlock.keyStep blk.data keyStart pos unsharedKeyLen
        let (value, pos) ← DataBlock.valueStep blk.data pos valueLen
        let rest ← DataBlock.getEntriesGo blk fuel pos key
        .ok ((key, value) :: rest)
    else .ok []

/-- `DataBlock::get_entries`. -/
def DataBlock.getEntries (blk : DataBlock) : Except Err (List (List Nat × List Nat)) :=
  DataBlock.getEntriesGo blk (blk.restartOffset + 1) 0 []

/-- Parsed index block state (`index_block::IndexBlock`). -/
structure IndexBlock where
  data : List Nat
  restartOffset : Nat
  numRestarts : Nat
  restartPoints : List Nat
deriving DecidableEq, Repr

/-- `IndexBlock::new`: unlike `DataBlock::new`, a restart count of 0 or
more than 1000, or a too-short payload, does NOT error: the parser falls
back to a "simple format" single-restart interpretation. -/
def IndexBlock.new (compressedData : List Nat) (compressionType : CompressionType) :
    Except Err IndexBlock := do
  let rawData ← decompress compressedData compressionType
  let data := if 5 ≤ rawData.length then rawData.take (rawData.length - 5) else rawData
  if data.length < 4 then
    .error (.invalidBlockFormat "Index block too small to contain restart info")
  else
  let numRestarts := readU32LE data (data.length - 4)
  if numRestarts = 0 ∨ 1000 < numRestarts then
    .ok ⟨data, data.length, 1, [0]⟩
  else if data.length < 4 + numRestarts * 4 then
    .ok ⟨data, data.length, 1, [0]⟩
  else
  let restartOffset := data.length - 4 - numRestarts * 4
  if data.length ≤ restartOffset then
    .error (.invalidBlockFormat "Invalid restart offset in index block")
  else
  .ok ⟨data, restartOffset, numRestarts,
       (List.range numRestarts).map fun i => readU32LE data (restartOffset + 4 * i)⟩

/-- `IndexBlock::is_restart_point`. -/
def IndexBlock.isRestartPoint (blk : IndexBlock) (offset : Nat) : Bool :=
  blk.restartPoints.contains offset

/-- `IndexBlock::parse_block_handle`: two u32 varints, widened to u64. -/
def IndexBlock.parseBlockHandle (valueData : List Nat) : Except Err BlockHandle := do
  let (offset, pos) ← readVarint32 valueData 0
  let (size, _) ← readVarint32 valueData pos
  .ok ⟨offset, size⟩

/-- The starting-position scan at the top of `IndexBlock::get_entries`: if the
first payload byte is non-zero, the first restart point with a zero byte is
used instead. -/
def IndexBlock.startPos (blk : IndexBlock) : Nat :=
  if 0 < blk.data.length ∧ blk.data.getD 0 0 ≠ 0 then
    match blk.restartPoints.find? (fun restartPos =>
        restartPos < blk.data.length ∧ 0 < restartPos ∧
        blk.data.getD restartPos 0 = 0) with
    | some restartPos => restartPos
    | none => 0
  else 0

/-- The body of the `IndexBlock::get_entries` loop.  Unlike the data-block
reader, the restart check that clears `last_key` runs AFTER the entry has
been consumed and pushed (clear-after-consume). -/
def IndexBlock.getEntriesGo (blk : IndexBlock) :
    Nat → Nat → List Nat → Except Err (List (List Nat × BlockHandle))
  | fuel, pos, lastKey =>
    if pos < blk.restartOffset then
      match fuel with
      | 0 => .error (.panicked "unreachable: out of fuel")
      | fuel + 1 => do
        let entryStart := pos
        let (sharedKeyLen, pos) ← readVarint32 blk.data pos
        let (unsharedKeyLen, pos) ← readVarint32 blk.data pos
        let (valueLen, pos) ← readVarint32 blk.data pos
        if u32Mod lastKey.length < sharedKeyLen then
          .error (.invalidBlockFormat "Shared key length exceeds previous key length in index block")
        else do
        let keyStart := lastKey.take sharedKeyLen
        let (key, pos) ←
          if 0 < unsharedKeyLen then
            if blk.data.length < pos + unsharedKeyLen then
              Except.error (.invalidBlockFormat "Index key extends beyond block")
            else
              Except.ok (keyStart ++ (blk.data.drop pos).take unsharedKeyLen,
                         pos + unsharedKeyLen)
          else Except.ok (keyStart, pos)
        if valueLen = 0 then
          .error (.invalidBlockFormat "Index entry must have value")
        else if blk.data.length < pos + valueLen then
          .error (.invalidBlockFormat "Index value extends beyond block")
        else do
        let blockHandle ← IndexBlock.parseBlockHandle ((blk.data.drop pos).take valueLen)
        let pos := pos + valueLen
        let lastKey := if blk.isRestartPoint (u32Mod entryStart) then [] else key
        let rest ← IndexBlock.getEntriesGo blk fuel pos lastKey
        .ok ((key, blockHandle) :: rest)
    else .ok []

/-- `IndexBlock::get_entries`. -/
def IndexBlock.getEntries (blk : IndexBlock) : Except Err (List (List Nat × BlockHandle)) :=
  IndexBlock.getEntriesGo blk (blk.restartOffset + 1) blk.startPos []

/-- `IndexBlock::get_all_block_handles`. -/
def IndexBlock.getAllBlockHandles (blk : IndexBlock) : Except Err (List BlockHandle) := do
  let entries ← blk.getEntries
  .ok (entries.map Prod.snd)

def ROCKSDB_MAGIC_NUMBER : Nat := 0x88e241b785f4cff7

def LEGACY_MAGIC_NUMBER : Nat := 0xdb4775248b80fb57

def FOOTER_SIZE : Nat := 49

/-- `footer::Footer`. -/
structure Footer where
  checksumType : ChecksumType
  metaindexHandle : BlockHandle
  indexHandle : BlockHandle
  formatVersion : Nat
  baseContextChecksum : Option Nat
deriving DecidableEq, Repr

/-- Sign-extension performed by `cursor.read_i32()? as u64`. -/
def i32AsU64 (raw : Nat) : Nat :=
  if raw < 2147483648 then raw else raw + (18446744073709551616 - 4294967296)

/-- `Footer::decode_from_bytes`.  The `ReverseCursor` reads fields from the
tail; each cursor read that would run past the start surfaces as
`DataCorruption` exactly as in the source.  u64 subtractions (`input_offset -
adjustment`, `footer_offset - metaindex_size`) wrap as release-mode Rust
does. -/
def Footer.decodeFromBytes (data : List Nat) (inputOffset : Nat) : Except Err Footer :=
  if data.length < 12 then .error (.invalidFooterSize data.length)
  else
  let len := data.length
  let magic := readU64LE data (len - 8)
  if magic = LEGACY_MAGIC_NUMBER then
    if len ≠ 48 then .error (.invalidFooterSize len)
    else do
      let (metaindexHandle, pos) ← BlockHandle.decodeFrom data 0
      let (indexHandle, _) ← BlockHandle.decodeFrom data pos
      .ok ⟨.crc32c, metaindexHandle, indexHandle, 0, none⟩
  else if magic ≠ ROCKSDB_MAGIC_NUMBER then .error (.invalidMagicNumber magic)
  else
  let formatVersion := readU32LE data (len - 12)
  if 6 ≤ formatVersion then
    if len < 28 then .error (.dataCorruption "Unable to read 16 bytes for reserved padding")
    else if len < 36 then .error (.dataCorruption "Unable to read reserved 8 bytes")
    else if readU64LE data (len - 36) ≠ 0 then
      .error (.unsupported "File uses a future feature not supported in this version")
    else
    let adjustment := 5
    let footerOffset := u64Mod (inputOffset + (18446744073709551616 - adjustment))
    if len < 40 then .error (.dataCorruption "Unable to read metaindex size")
    else
    let metaindexSize := i32AsU64 (readU32LE data (len - 40))
    let metaindexHandle : BlockHandle :=
      ⟨u64Mod (footerOffset + (18446744073709551616 - metaindexSize % 18446744073709551616)),
       metaindexSize⟩
    let indexHandle : BlockHandle := ⟨0, 0⟩
    if len < 44 then .error (.dataCorruption "Unable to read base context checksum")
    else
    let baseContextChecksum := readU32LE data (len - 44)
    if len < 48 then .error (.dataCorruption "Unable to read stored checksum")
    else
    let storedChecksum := readU32LE data (len - 48)
    if len < 52 then .error (.dataCorruption "Unable to read footer magic bytes")
    else if (data.drop (len - 52)).take 4 ≠ [0x3e, 0x00, 0x7a, 0x00] then
      .error (.dataCorruption "Invalid extended magic")
    else if len < 53 then .error (.dataCorruption "Unable to read checksum type")
    else do
    let checksumType ← ChecksumType.tryFrom (data.getD (len - 53) 0 % 256)
    let footerCopy := data.take 5 ++ [0, 0, 0, 0] ++ data.drop 9
    let computedChecksum := checksumType.calculate footerCopy
    let modifiedChecksum := u32Mod (computedChecksum +
      checksum_modifier_for_context baseContextChecksum inputOffset)
    if modifiedChecksum ≠ storedChecksum then
      .error (.dataCorruption "Footer checksum mismatch")
    else
      .ok ⟨checksumType, metaindexHandle, indexHandle, formatVersion, some baseContextChecksum⟩
  else
    let versionStart := len - 12
    let firstByte := data.getD 0 0 % 256
    let (checksumType, phase2Data) :=
      if firstByte ≤ 0x7F ∧ 1 ≤ formatVersion then
        match ChecksumType.tryFrom firstByte with
        | .ok ct => (ct, (data.take versionStart).drop 1)
        | .error _ => (ChecksumType.crc32c, data.take versionStart)
      else (ChecksumType.crc32c, data.take versionStart)
    match BlockHandle.decodeFrom phase2Data 0 with
    | .error e => .error e
    | .ok (metaindexHandle, pos) =>
      match BlockHandle.decodeFrom phase2Data pos with
      | .error e => .error e
      | .ok (indexHandle, _) =>
        .ok ⟨checksumType, metaindexHandle, indexHandle, formatVersion, none⟩

/-- `Footer::encode_to_bytes`.  For v1–v5 the usize computation
`FOOTER_SIZE - used_bytes - 12` underflows (and aborts) when the two handle
encodings do not fit; that outcome is `Err.panicked`. -/
def Footer.encodeToBytes (f : Footer) (offset : Nat) : Except Err (List Nat) :=
  if 6 ≤ f.formatVersion then
    let baseContextChecksum := f.baseContextChecksum.getD 0
    let data := [f.checksumType.tag, 0x3e, 0x00, 0x7a, 0x00] ++ [0, 0, 0, 0] ++
      u32LE (u32Mod baseContextChecksum) ++ u32LE (u32Mod f.metaindexHandle.size) ++
      List.replicate 8 0 ++ List.replicate 16 0 ++
      u32LE (u32Mod f.formatVersion) ++ u64LE ROCKSDB_MAGIC_NUMBER
    let computedChecksum := f.checksumType.calculate data
    let modifiedChecksum := u32Mod (computedChecksum +
      checksum_modifier_for_context baseContextChecksum offset)
    .ok (data.take 5 ++ u32LE modifiedChecksum ++ data.drop 9)
  else
    let data := [f.checksumType.tag] ++ f.metaindexHandle.encode_to ++ f.indexHandle.encode_to
    let usedBytes := data.length
    if FOOTER_SIZE < usedBytes + 12 then .error (.panicked "padding size underflow")
    else
      .ok (data ++ List.replicate (FOOTER_SIZE - usedBytes - 12) 0 ++
           u32LE (u32Mod f.formatVersion) ++ u64LE ROCKSDB_MAGIC_NUMBER)

/-- `Footer::read_from`, over the file's bytes.  After matching the RocksDB
magic the source reads the 4 format-version bytes at `End(-12)` but then
ignores them: `footer_size` is the constant 53 for every format version. -/
def Footer.readFrom (file : List Nat) : Except Err Footer :=
  let fileSize := file.length
  if fileSize < 48 then .error .fileTooSmall
  else
  let magic := readU64LE file (fileSize - 8)
  if magic = ROCKSDB_MAGIC_NUMBER then
    let footerSize := 53
    if fileSize < footerSize then .error .fileTooSmall
    else Footer.decodeFromBytes (file.drop (fileSize - footerSize)) (fileSize - footerSize)
  else
    let legacyMagic := readU64LE file (fileSize - 48)
    if legacyMagic = LEGACY_MAGIC_NUMBER then
      Footer.decodeFromBytes ((file.drop (fileSize - 48)).take 48) (fileSize - 48)
    else .error (.invalidMagicNumber magic)

/-- `sst_file_writer::EntryType`. -/
inductive EntryType where
  | put
  | delete
  | merge
deriving DecidableEq, Repr

/-- `EntryType as u8` (default discriminants 0, 1, 2). -/
def EntryType.tag : EntryType → Nat
  | .put => 0
  | .delete => 1
  | .merge => 2

/-- `types::FormatVersion`. -/
inductive FormatVersion where
  | v5
  | v6
  | v7
deriving DecidableEq, Repr

/-- `FormatVersion as u32`. -/
def FormatVersion.tag : FormatVersion → Nat
  | .v5 => 5
  | .v6 => 6
  | .v7 => 7

/-- `types::WriteOptions` (the writer's `Options`). -/
structure WriteOptions where
  compression : CompressionType
  blockSize : Nat
  blockRestartInterval : Nat
  formatVersion : FormatVersion
deriving DecidableEq, Repr

/-- `Default for WriteOptions`. -/
def WriteOptions.default : WriteOptions := ⟨.none, 4096, 16, .v5⟩

/-- `types::ReadOptions`.  Declared in types.rs with the documentation
"Whether to verify checksums when reading the file. Enabled by default";
no code path of the reader consumes it. -/
structure ReadOptions where
  verifyChecksums : Bool
deriving DecidableEq, Repr

/-- `Default for ReadOptions`. -/
def ReadOptions.default : ReadOptions := ⟨true⟩

/-- Rust byte-slice ordering (`[u8]: Ord`): lexicographic, a strict prefix
sorts first. -/
def bytesCompare : List Nat → List Nat → Ordering
  | [], [] => .eq
  | [], _ :: _ => .lt
  | _ :: _, [] => .gt
  | a :: as, b :: bs => if a < b then .lt else if b < a then .gt else bytesCompare as bs

/-- `key <= last_key.as_slice()`. -/
def bytesLe (a b : List Nat) : Bool := bytesCompare a b ≠ .gt

/-- Modelled from the spec: sst_file_writer.rs drives the builders and footer
through an older API (`DataBlockBuilder::new(restart_interval)`,
`finish(compression)` with no checksum argument, and a `Footer` literal with
no checksum-type or context fields).  The checksum flavour those missing
arguments carried is fixed by spec §8 scenario S1 (a V5 file with CRC32c);
the context arguments are `None`/`None` because context checksums are a
v6+-only feature and the base context checksum is absent from the writer. -/
def writerChecksumType : ChecksumType := .crc32c

/-- `sst_file_writer::SstFileWriter` state; the bytes written to the
underlying file so far are carried in `fileBytes` (the `writer: Option<..>`
presence flag is `writerOpen`). -/
structure SstFileWriter where
  options : WriteOptions
  writerOpen : Bool
  fileBytes : List Nat
  dataBlockBuilder : DataBlockBuilder
  indexBlockBuilder : IndexBlockBuilder
  offset : Nat
  numEntries : Nat
  lastKey : List Nat
  finished : Bool
  pendingIndexEntry : Option (List Nat × BlockHandle)
deriving Repr

/-- `SstFileWriter::create`. -/
def SstFileWriter.create (opts : WriteOptions) : SstFileWriter :=
  ⟨opts, false, [], DataBlockBuilder.new opts.blockRestartInterval,
   IndexBlockBuilder.new opts.blockRestartInterval, 0, 0, [], false, none⟩

/-- `SstFileWriter::open`. -/
def SstFileWriter.openFile (w : SstFileWriter) : Except Err SstFileWriter :=
  if w.writerOpen then .error (.invalidArgument "File already open")
  else .ok { w with writerOpen := true, fileBytes := [], offset := 0,
                    numEntries := 0, lastKey := [], finished := false }

/-- `SstFileWriter::create_empty_metaindex_block`: a restart point at 0, a
restart count of 1, a `None` compression tag and a dummy zero checksum.  The
source method ignores every field of `&self`; the options parameter is kept
to express that the result does not depend on the configuration. -/
def SstFileWriter.createEmptyMetaindexBlock (_opts : WriteOptions) : List Nat :=
  u32LE 0 ++ u32LE 1 ++ [CompressionType.none.tag] ++ u32LE 0

/-- `SstFileWriter::encode_entry_value`: the entry-type tag byte before the
value. -/
def SstFileWriter.encodeEntryValue (value : List Nat) (entryType : EntryType) : List Nat :=
  entryType.tag :: value

/-- `SstFileWriter::flush_data_block`. -/
def SstFileWriter.flushDataBlock (w : SstFileWriter) : Except Err SstFileWriter :=
  if w.dataBlockBuilder.empty then .ok w
  else do
    let blockData ← w.dataBlockBuilder.finish w.options.compression writerChecksumType none none
    let blockHandle : BlockHandle := ⟨w.offset, blockData.length⟩
    let w := { w with fileBytes := w.fileBytes ++ blockData,
                      offset := w.offset + blockData.length }
    let w ← match w.pendingIndexEntry with
      | some (prevKey, prevHandle) =>
          match w.indexBlockBuilder.addIndexEntry prevKey prevHandle with
          | some ib => Except.ok { w with indexBlockBuilder := ib, pendingIndexEntry := none }
          | none => Except.error (.panicked "add_index_entry assert")
      | none => Except.ok w
    .ok { w with pendingIndexEntry := some (w.lastKey, blockHandle),
                 dataBlockBuilder := w.dataBlockBuilder.reset }

/-- `SstFileWriter::add_entry`. -/
def SstFileWriter.addEntry (w : SstFileWriter) (key value : List Nat)
    (entryType : EntryType) : Except Err SstFileWriter :=
  if w.finished then .error (.invalidArgument "Writer is finished")
  else if ¬ w.writerOpen then .error (.invalidArgument "No file open")
  else if ¬ w.lastKey.isEmpty ∧ bytesLe key w.lastKey then
    .error (.invalidArgument "Keys must be added in strictly increasing order")
  else do
    let w ← if w.options.blockSize ≤ w.dataBlockBuilder.sizeEstimate ∧
               ¬ w.dataBlockBuilder.empty
            then w.flushDataBlock else Except.ok w
    let encodedValue := SstFileWriter.encodeEntryValue value entryType
    match w.dataBlockBuilder.add key encodedValue with
    | some db => .ok { w with dataBlockBuilder := db, lastKey := key,
                              numEntries := w.numEntries + 1 }
    | none => .error (.panicked "DataBlockBuilder::add assert")

/-- `SstFileWriter::put`. -/
def SstFileWriter.put (w : SstFileWriter) (key value : List Nat) : Except Err SstFileWriter :=
  w.addEntry key value .put

/-- `SstFileWriter::merge`. -/
def SstFileWriter.merge (w : SstFileWriter) (key value : List Nat) : Except Err SstFileWriter :=
  w.addEntry key value .merge

/-- `SstFileWriter::delete`. -/
def SstFileWriter.deleteKey (w : SstFileWriter) (key : List Nat) : Except Err SstFileWriter :=
  w.addEntry key [] .delete

/-- `SstFileWriter::finish`.  Note that after the final `flush_data_block`
the pending index entry it queued is never committed to the index block, and
the footer is built from the older `Footer` literal (see
`writerChecksumType` for the modelled missing fields).  The index block is
finished with `CompressionType::None` regardless of the configuration. -/
def SstFileWriter.finish (w : SstFileWriter) : Except Err SstFileWriter :=
  if w.finished then .error (.invalidArgument "Already finished")
  else if ¬ w.writerOpen then .error (.invalidArgument "No file open")
  else do
    let w ← if ¬ w.dataBlockBuilder.empty then w.flushDataBlock else Except.ok w
    let indexBlockData ← w.indexBlockBuilder.finish .none writerChecksumType none none
    let indexHandle : BlockHandle := ⟨w.offset, indexBlockData.length⟩
    let metaindexData := SstFileWriter.createEmptyMetaindexBlock w.options
    let metaindexOffset := w.offset + indexBlockData.length
    let metaindexHandle : BlockHandle := ⟨metaindexOffset, metaindexData.length⟩
    let footer : Footer := ⟨writerChecksumType, metaindexHandle, indexHandle,
                            w.options.formatVersion.tag, none⟩
    let footerData ← footer.encodeToBytes (metaindexOffset + metaindexData.length)
    .ok { w with fileBytes := w.fileBytes ++ indexBlockData ++ metaindexData ++ footerData,
                 offset := w.offset + indexBlockData.length + metaindexData.length,
                 finished := true }

/-- `sst_reader::SstReader` over the file's bytes. -/
structure SstReader where
  fileBytes : List Nat
  footer : Footer
  fileSize : Nat
deriving DecidableEq, Repr

/-- `SstReader::open`: reads and caches the footer. -/
def SstReader.openFile (file : List Nat) : Except Err SstReader := do
  let footer ← Footer.readFrom file
  .ok ⟨file, footer, file.length⟩

/-- `SstReader::read_block`. -/
def SstReader.readBlock (r : SstReader) (handle : BlockHandle) : Except Err (List Nat) :=
  if r.fileSize < handle.offset + handle.size then
    .error (.invalidBlockHandle "Block extends beyond file size")
  else .ok ((r.fileBytes.drop handle.offset).take handle.size)

/-- `SstReader::read_data_block`. -/
def SstReader.readDataBlock (r : SstReader) (handle : BlockHandle)
    (compressionType : CompressionType) : Except Err DataBlock := do
  let blockData ← r.readBlock handle
  DataBlock.new blockData compressionType

/-- `data_block::DataBlockReader`: the parsed entries plus a cursor. -/
structure DataBlockReader where
  entries : List (List Nat × List Nat)
  currentEntry : Nat
deriving DecidableEq, Repr

/-- `DataBlockReader::new`. -/
def DataBlockReader.new (compressedData : List Nat) (compressionType : CompressionType) :
    Except Err DataBlockReader := do
  let block ← DataBlock.new compressedData compressionType
  let entries ← block.getEntries
  .ok ⟨entries, 0⟩

/-- `DataBlockReader::seek_to_first`. -/
def DataBlockReader.seekToFirst (r : DataBlockReader) : DataBlockReader :=
  { r with currentEntry := 0 }

/-- `DataBlockReader::next`: yields the entry at the cursor and advances. -/
def DataBlockReader.next (r : DataBlockReader) :
    Option (List Nat × List Nat) × DataBlockReader :=
  if r.currentEntry < r.entries.length then
    (some (r.entries.getD r.currentEntry ([], [])), { r with currentEntry := r.currentEntry + 1 })
  else (none, r)

/-- `DataBlockReader::valid`. -/
def DataBlockReader.valid (r : DataBlockReader) : Bool :=
  r.currentEntry < r.entries.length

/-- `DataBlockReader::key` (defined only after the cursor has moved). -/
def DataBlockReader.key (r : DataBlockReader) : Option (List Nat) :=
  if 0 < r.currentEntry ∧ r.currentEntry ≤ r.entries.length then
    some (r.entries.getD (r.currentEntry - 1) ([], [])).1
  else none

/-- `DataBlockReader::value`. -/
def DataBlockReader.value (r : DataBlockReader) : Option (List Nat) :=
  if 0 < r.currentEntry ∧ r.currentEntry ≤ r.entries.length then
    some (r.entries.getD (r.currentEntry - 1) ([], [])).2
  else none

/-- `iterator::SstTableIterator` state. -/
structure SstTableIterator where
  sstReader : SstReader
  allBlockHandles : List BlockHandle
  currentDataBlock : Option DataBlockReader
  currentBlockIndex : Nat
  compressionType : CompressionType
  valid : Bool
deriving Repr

/-- `SstTableIterator::new`: reads the index block through the footer's index
handle (always with `CompressionType::None`). -/
def SstTableIterator.new (r : SstReader) (compressionType : CompressionType) :
    Except Err SstTableIterator := do
  let indexData ← r.readBlock r.footer.indexHandle
  let indexBlock ← IndexBlock.new indexData .none
  let allBlockHandles ← indexBlock.getAllBlockHandles
  .ok ⟨r, allBlockHandles, none, 0, compressionType, false⟩

/-- `SstTableIterator::load_data_block`. -/
def SstTableIterator.loadDataBlock (it : SstTableIterator) (blockIndex : Nat) :
    Except Err SstTableIterator :=
  if it.allBlockHandles.length ≤ blockIndex then
    .ok { it with currentDataBlock := none, valid := false }
  else do
    let handle := it.allBlockHandles.getD blockIndex BlockHandle.null
    let bytes ← it.sstReader.readBlock handle
    let rdr ← DataBlockReader.new bytes it.compressionType
    .ok { it with currentDataBlock := some rdr, currentBlockIndex := blockIndex }

/-- `SstTableIterator::seek_to_first`. -/
def SstTableIterator.seekToFirst (it : SstTableIterator) : Except Err SstTableIterator :=
  if it.allBlockHandles.isEmpty then .ok { it with valid := false }
  else do
    let it ← it.loadDataBlock 0
    match it.currentDataBlock with
    | some db =>
      let db := db.seekToFirst
      .ok { it with currentDataBlock := some db, valid := db.valid }
    | none => .ok { it with valid := false }

/-- `SstTableIterator::next` (the `SstIterator` trait method). -/
def SstTableIterator.nextEntry (it : SstTableIterator) :
    Except Err (Bool × SstTableIterator) :=
  if ¬ it.valid then .ok (false, it)
  else match it.currentDataBlock with
    | some db =>
      let (e, db) := db.next
      let it := { it with currentDataBlock := some db }
      if e.isSome ∧ db.valid then .ok (true, it)
      else
        let nextBlockIndex := it.currentBlockIndex + 1
        if nextBlockIndex < it.allBlockHandles.length then do
          let it ← it.loadDataBlock nextBlockIndex
          match it.currentDataBlock with
          | some ndb =>
            let ndb := ndb.seekToFirst
            .ok (ndb.valid, { it with currentDataBlock := some ndb, valid := ndb.valid })
          | none => .ok (false, { it with valid := false })
        else .ok (false, { it with valid := false })
    | none => .ok (false, { it with valid := false })

/-- `SstTableIterator::key` (the trait method: `None` unless `valid`). -/
def SstTableIterator.keyOpt (it : SstTableIterator) : Option (List Nat) :=
  if it.valid then it.currentDataBlock.bind DataBlockReader.key else none

/-- `SstTableIterator::value`. -/
def SstTableIterator.valueOpt (it : SstTableIterator) : Option (List Nat) :=
  if it.valid then it.currentDataBlock.bind DataBlockReader.value else none

/-- The `SstEntryIterator::collect_all` loop.  One fuel unit per iteration;
every iteration advances the entry cursor or the block index, so the fuel
passed by `sstCollectAll` cannot run out on the files it is applied to. -/
def collectAllGo (it : SstTableIterator) : Nat → Except Err (List (List Nat × List Nat))
  | 0 => .error (.panicked "out of fuel")
  | fuel + 1 =>
    if ¬ it.valid then .ok []
    else do
      let pushed := match it.keyOpt, it.valueOpt with
        | some k, some v => [(k, v)]
        | _, _ => []
      let (cont, it) ← it.nextEntry
      if cont then do
        let rest ← collectAllGo it fuel
        .ok (pushed ++ rest)
      else .ok pushed

/-- `SstEntryIterator::collect_all` composed over `SstEntryIterator::new`:
open the table iterator, seek to the first entry and drain. -/
def sstCollectAll (file : List Nat) (compressionType : CompressionType) :
    Except Err (List (List Nat × List Nat)) := do
  let reader ← SstReader.openFile file
  let it ← SstTableIterator.new reader compressionType
  let it ← it.seekToFirst
  collectAllGo it (file.length + it.allBlockHandles.length + 2)

/-- Fold of `DataBlockBuilder::add` over a list of entries, in order. -/
def addAll (b : DataBlockBuilder) : List (List Nat × List Nat) → Option DataBlockBuilder
  | [] => some b
  | (k, v) :: rest => (b.add k v).bind (addAll · rest)

/-- Specification-side description of one encoded builder entry: whether the
builder restarted before it, the `shared` count it used, and the key/value. -/
structure Chunk where
  restart : Bool
  shared : Nat
  key : List Nat
  value : List Nat
deriving DecidableEq, Repr

/-- The bytes `DataBlockBuilder::add` appends for a chunk. -/
def Chunk.bytes (c : Chunk) : List Nat :=
  encVarint (u32Mod c.shared) ++ encVarint (u32Mod (c.key.length - c.shared)) ++
  encVarint (u32Mod c.value.length) ++ c.key.drop c.shared ++ c.value

/-- The chunk sequence the builder produces from a given counter, last key and
entry list (mirrors the control flow of `DataBlockBuilder::add`). -/
def chunksOf (R : Nat) : Nat → List Nat → List (List Nat × List Nat) → List Chunk
  | _, _, [] => []
  | counter, lk, (k, v) :: rest =>
    if counter < R then
      ⟨false, commonPrefixLen lk k, k, v⟩ :: chunksOf R (counter + 1) k rest
    else
      ⟨true, 0, k, v⟩ :: chunksOf R 1 k rest

/-- Concatenated bytes of a chunk sequence. -/
def chunksBytes (cs : List Chunk) : List Nat := (cs.map Chunk.bytes).flatten

/-- The restart offsets the builder pushes while emitting a chunk sequence
that starts at buffer offset `off`. -/
def restartOffsets (off : Nat) : List Chunk → List Nat
  | [] => []
  | c :: cs =>
    if c.restart then off :: restartOffsets (off + c.bytes.length) cs
    else restartOffsets (off + c.bytes.length) cs

/-- Invariant under which the `DataBlock::get_entries` loop, started at
position `q` with last key `lk`, decodes a chunk sequence to exactly its
keys and values (relative to the block's restart set `Rset`). -/
def ChunksParseOk (Rset : List Nat) : Nat → List Nat → List Chunk → Prop
  | _, _, [] => True
  | q, lk, c :: cs =>
      q < 4294967296 ∧
      c.shared < 4294967296 ∧ c.key.length < 4294967296 ∧ c.value.length < 4294967296 ∧
      lk.length < 4294967296 ∧ c.shared ≤ c.key.length ∧
      ((Rset.contains q = true ∧ c.shared = 0) ∨
       (Rset.contains q = false ∧ c.shared ≤ lk.length ∧
        lk.take c.shared = c.key.take c.shared)) ∧
      ChunksParseOk Rset (q + c.bytes.length) c.key cs

end RocksDbFF

namespace RocksDbFF

/-! ## Generic byte-level lemmas -/

theorem lor_mul_two_pow {a : Nat} (b s : Nat) (ha : a < 2 ^ s) :
    a ||| b * 2 ^ s = a + b * 2 ^ s := by
  apply Nat.eq_of_testBit_eq
  intro j
  rw [Nat.testBit_lor]
  have hadd : a + b * 2 ^ s = 2 ^ s * b + a := by ring
  have hb0 : b * 2 ^ s = 2 ^ s * b + 0 := by ring
  rw [hadd, Nat.testBit_mul_pow_two_add b ha j, hb0,
      Nat.testBit_mul_pow_two_add b (Nat.pos_pow_of_pos s (by omega)) j]
  by_cases hj : j < s
  · simp [hj]
  · have : a < 2 ^ j := lt_of_lt_of_le ha (Nat.pow_le_pow_right (by omega) (by omega))
    simp [hj, Nat.testBit_lt_two_pow this]

theorem getD_append_add (pre l : List Nat) (i d : Nat) :
    (pre ++ l).getD (pre.length + i) d = l.getD i d := by
  rw [List.getD_eq_getElem?_getD, List.getD_eq_getElem?_getD,
      List.getElem?_append_right (by omega)]
  have h : pre.length + i - pre.length = i := by omega
  rw [h]

theorem encVarintGo_congr : ∀ (n f g : Nat), n ≤ f → n ≤ g →
    encVarintGo n f = encVarintGo n g := by
  intro n
  induction n using Nat.strong_induction_on with
  | _ n ih =>
    intro f g hf hg
    match f, g with
    | 0, 0 => rfl
    | 0, g + 1 =>
      have hn : n = 0 := by omega
      subst hn
      rfl
    | f + 1, 0 =>
      have hn : n = 0 := by omega
      subst hn
      rfl
    | f + 1, g + 1 =>
      show (if n < 128 then [n] else (n % 128 + 128) :: encVarintGo (n / 128) f) =
        (if n < 128 then [n] else (n % 128 + 128) :: encVarintGo (n / 128) g)
      by_cases h : n < 128
      · rw [if_pos h, if_pos h]
      · rw [if_neg h, if_neg h]
        have hd : n / 128 < n := Nat.div_lt_self (by omega) (by omega)
        rw [ih (n / 128) hd f g (by omega) (by omega)]

/-- The recursive equation of the source encoding loop: `encVarint` satisfies
`encode_varint` / `write_varint64`'s `while value >= 0x80` unfolding. -/
theorem encVarint_unfold (n : Nat) :
    encVarint n = if n < 128 then [n] else (n % 128 + 128) :: encVarint (n / 128) := by
  match n with
  | 0 => rfl
  | m + 1 =>
    show (if m + 1 < 128 then [m + 1]
        else ((m + 1) % 128 + 128) :: encVarintGo ((m + 1) / 128) m) = _
    by_cases h : m + 1 < 128
    · rw [if_pos h, if_pos h]
    · rw [if_neg h, if_neg h]
      have hd : (m + 1) / 128 < m + 1 := Nat.div_lt_self (by omega) (by omega)
      rw [encVarintGo_congr ((m + 1) / 128) m ((m + 1) / 128) (by omega) (by omega)]
      rfl

theorem readVarint32F_succ (data : List Nat) (pos shift acc fuel : Nat) :
    readVarint32F data pos shift acc (fuel + 1) =
      if pos < data.length then
        let byte := data.getD pos 0 % 256
        let acc := acc ||| u32Mod ((byte % 128) <<< shift)
        if byte / 128 % 2 = 0 then .ok (acc, pos + 1)
        else if 32 ≤ shift + 7 then .error .invalidVarint
        else readVarint32F data (pos + 1) (shift + 7) acc fuel
      else .error .invalidVarint := rfl

/-- The recursive equation of `read_varint`'s loop: one byte per step, with
the `shift >= 32` overflow guard. -/
theorem readVarint32Go_unfold (data : List Nat) (pos shift acc : Nat) :
    readVarint32Go data pos shift acc =
      if pos < data.length then
        let byte := data.getD pos 0 % 256
        let acc := acc ||| u32Mod ((byte % 128) <<< shift)
        if byte / 128 % 2 = 0 then .ok (acc, pos + 1)
        else if 32 ≤ shift + 7 then .error .invalidVarint
        else readVarint32Go data (pos + 1) (shift + 7) acc
      else .error .invalidVarint := by
  by_cases h : pos < data.length
  · have hf : data.length - pos = (data.length - (pos + 1)) + 1 := by omega
    rw [readVarint32Go, hf, readVarint32F_succ]
    rfl
  · have hf : data.length - pos = 0 := by omega
    rw [readVarint32Go, hf, if_neg h]
    rfl

theorem encVarint_length_pos (v : Nat) : 1 ≤ (encVarint v).length := by
  rw [encVarint_unfold]
  by_cases h : v < 128 <;> simp [h]

theorem sliceExtract (pre mid post : List Nat) :
    ((pre ++ (mid ++ post)).drop pre.length).take mid.length = mid := by
  rw [List.drop_left, List.take_left]

theorem getD_append_self (pre l : List Nat) (d : Nat) :
    (pre ++ l).getD pre.length d = l.getD 0 d := by
  have h := getD_append_add pre l 0 d
  simpa using h

/-! ## Decoding a canonically encoded varint (data_block.rs loop) -/

theorem readVarint32Go_enc :
    ∀ (v : Nat) (pre post : List Nat) (shift acc : Nat),
      acc < 2 ^ shift →
      v * 2 ^ shift + acc < 4294967296 →
      readVarint32Go (pre ++ (encVarint v ++ post)) pre.length shift acc =
        .ok (v * 2 ^ shift + acc, pre.length + (encVarint v).length) := by
  intro v
  induction v using Nat.strong_induction_on with
  | _ v ih =>
    intro pre post shift acc hacc hv
    have hlen : pre.length < (pre ++ (encVarint v ++ post)).length := by
      have := encVarint_length_pos v
      simp [List.length_append]
      omega
    rw [readVarint32Go_unfold, if_pos hlen]
    rw [encVarint_unfold]
    by_cases h128 : v < 128
    · simp only [if_pos h128]
      have hbyte : (pre ++ ([v] ++ post)).getD pre.length 0 % 256 = v := by
        rw [getD_append_self]
        simp [Nat.mod_eq_of_lt (show v < 256 by omega)]
      simp only [hbyte]
      have hshl : u32Mod ((v % 128) <<< shift) = v * 2 ^ shift := by
        have h1 : v % 128 = v := Nat.mod_eq_of_lt h128
        have h2 : v * 2 ^ shift < 4294967296 := by omega
        rw [h1, Nat.shiftLeft_eq]
        exact Nat.mod_eq_of_lt h2
      have hdiv : v / 128 % 2 = 0 := by omega
      rw [hshl, hdiv]
      simp only [if_pos rfl]
      rw [lor_mul_two_pow v shift hacc, Nat.add_comm acc (v * 2 ^ shift)]
      simp
    · simp only [if_neg h128]
      have hbyte : (pre ++ ((v % 128 + 128) :: encVarint (v / 128) ++ post)).getD pre.length 0
          % 256 = v % 128 + 128 := by
        rw [getD_append_self]
        have : v % 128 < 128 := Nat.mod_lt _ (by omega)
        simp [Nat.mod_eq_of_lt (show v % 128 + 128 < 256 by omega)]
      simp only [hbyte]
      have hvshift : v % 128 * 2 ^ shift + acc < 4294967296 := by
        have : v % 128 * 2 ^ shift ≤ v * 2 ^ shift :=
          Nat.mul_le_mul_right _ (Nat.mod_le _ _)
        omega
      have hmod : (v % 128 + 128) % 128 = v % 128 := by omega
      have hshl : u32Mod (((v % 128 + 128) % 128) <<< shift) = v % 128 * 2 ^ shift := by
        rw [hmod, Nat.shiftLeft_eq]
        exact Nat.mod_eq_of_lt (by omega)
      have hdiv : (v % 128 + 128) / 128 % 2 = 1 := by omega
      rw [hshl, hdiv, lor_mul_two_pow (v % 128) shift hacc]
      simp only [one_ne_zero, if_false]
      have hshift7 : ¬ 32 ≤ shift + 7 := by
        intro hge
        have h2s : (2 : Nat) ^ 25 ≤ 2 ^ shift := Nat.pow_le_pow_right (by omega) (by omega)
        have hle : 128 * 2 ^ 25 ≤ v * 2 ^ shift :=
          Nat.mul_le_mul (by omega) h2s
        have h225 : (128 : Nat) * 2 ^ 25 = 4294967296 := by norm_num
        omega
      rw [if_neg hshift7]
      have hassoc : pre ++ ((v % 128 + 128) :: encVarint (v / 128) ++ post) =
          (pre ++ [v % 128 + 128]) ++ (encVarint (v / 128) ++ post) := by
        simp
      have hpos : pre.length + 1 = (pre ++ [v % 128 + 128]).length := by
        simp
      rw [hassoc, hpos]
      have hdivlt : v / 128 < v := Nat.div_lt_self (by omega) (by omega)
      have h3 : (2 : Nat) ^ (shift + 7) = 2 ^ shift * 128 := by
        rw [Nat.pow_add]
      have hacc2 : acc + v % 128 * 2 ^ shift < 2 ^ (shift + 7) := by
        have h1 : v % 128 ≤ 127 := by omega
        have h2 : v % 128 * 2 ^ shift ≤ 127 * 2 ^ shift :=
          Nat.mul_le_mul_right _ h1
        omega
      have hval : v / 128 * 2 ^ (shift + 7) + (acc + v % 128 * 2 ^ shift) =
          v * 2 ^ shift + acc := by
        rw [h3]
        nlinarith [Nat.div_add_mod v 128]
      have hrec := ih (v / 128) hdivlt (pre ++ [v % 128 + 128]) post (shift + 7)
        (acc + v % 128 * 2 ^ shift) hacc2 (by omega)
      rw [hrec, hval]
      have hfin : (pre ++ [v % 128 + 128]).length + (encVarint (v / 128)).length =
          pre.length + ((v % 128 + 128) :: encVarint (v / 128)).length := by
        simp
        try omega
      rw [hfin]

theorem readVarint32_enc (v : Nat) (pre post : List Nat) (hv : v < 4294967296) :
    readVarint32 (pre ++ (encVarint v ++ post)) pre.length =
      .ok (v, pre.length + (encVarint v).length) := by
  have h := readVarint32Go_enc v pre post 0 0 (by omega) (by omega)
  simpa [readVarint32] using h

/-! ## Reading back little-endian u32 fields -/

theorem readU32LE_append (pre post : List Nat) (n : Nat) :
    readU32LE (pre ++ (u32LE n ++ post)) pre.length = n % 4294967296 := by
  have h0 : (pre ++ (u32LE n ++ post)).getD pre.length 0 = n % 256 := by
    rw [getD_append_self]; simp [u32LE]
  have h1 : (pre ++ (u32LE n ++ post)).getD (pre.length + 1) 0 = n / 256 % 256 := by
    rw [getD_append_add]; simp [u32LE]
  have h2 : (pre ++ (u32LE n ++ post)).getD (pre.length + 2) 0 = n / 65536 % 256 := by
    rw [getD_append_add]; simp [u32LE]
  have h3 : (pre ++ (u32LE n ++ post)).getD (pre.length + 3) 0 = n / 16777216 % 256 := by
    rw [getD_append_add]; simp [u32LE]
  rw [readU32LE, h0, h1, h2, h3]
  omega

theorem readRestartArray :
    ∀ (rs : List Nat) (pre post : List Nat),
      (∀ r ∈ rs, r < 4294967296) →
      (List.range rs.length).map
        (fun i => readU32LE (pre ++ ((rs.map u32LE).flatten ++ post)) (pre.length + 4 * i)) =
        rs := by
  intro rs
  induction rs with
  | nil => simp
  | cons r rest ih =>
    intro pre post hlt
    rw [List.length_cons, List.range_succ_eq_map, List.map_cons]
    have hflat : ((r :: rest).map u32LE).flatten = u32LE r ++ (rest.map u32LE).flatten := by
      simp
    congr 1
    · rw [hflat]
      have h := readU32LE_append pre ((rest.map u32LE).flatten ++ post) r
      have hr : r % 4294967296 = r := Nat.mod_eq_of_lt (hlt r (by simp))
      rw [Nat.mul_zero, Nat.add_zero]
      rw [show pre ++ (u32LE r ++ (rest.map u32LE).flatten ++ post) =
            pre ++ (u32LE r ++ ((rest.map u32LE).flatten ++ post)) by simp, h, hr]
    · rw [List.map_map]
      have hfun : ∀ i ∈ List.range rest.length,
          ((fun i => readU32LE (pre ++ (((r :: rest).map u32LE).flatten ++ post))
            (pre.length + 4 * i)) ∘ Nat.succ) i =
          (fun i => readU32LE ((pre ++ u32LE r) ++ ((rest.map u32LE).flatten ++ post))
            ((pre ++ u32LE r).length + 4 * i)) i := by
        intro i _
        simp only [Function.comp_apply]
        congr 1
        · rw [hflat]; simp
        · simp [u32LE]
          omega
      rw [List.map_congr_left hfun]
      exact ih (pre ++ u32LE r) post (fun x hx => hlt x (by simp [hx]))

/-! ## Chunk-level facts -/

theorem chunksBytes_nil : chunksBytes [] = [] := rfl

theorem chunksBytes_cons (c : Chunk) (cs : List Chunk) :
    chunksBytes (c :: cs) = c.bytes ++ chunksBytes cs := by
  simp [chunksBytes]

theorem chunkBytes_len (c : Chunk) : 3 ≤ c.bytes.length := by
  have h1 := encVarint_length_pos (u32Mod c.shared)
  have h2 := encVarint_length_pos (u32Mod (c.key.length - c.shared))
  have h3 := encVarint_length_pos (u32Mod c.value.length)
  simp [Chunk.bytes]
  omega

theorem commonPrefixLen_le_left : ∀ (a b : List Nat), commonPrefixLen a b ≤ a.length := by
  intro a
  induction a with
  | nil => intro b; cases b <;> simp [commonPrefixLen]
  | cons x xs ih =>
    intro b
    cases b with
    | nil => simp [commonPrefixLen]
    | cons y ys =>
      rw [commonPrefixLen]
      by_cases h : x = y
      · simp only [if_pos h, List.length_cons]
        have := ih ys
        omega
      · simp [h]

theorem commonPrefixLen_le_right : ∀ (a b : List Nat), commonPrefixLen a b ≤ b.length := by
  intro a
  induction a with
  | nil => intro b; cases b <;> simp [commonPrefixLen]
  | cons x xs ih =>
    intro b
    cases b with
    | nil => simp [commonPrefixLen]
    | cons y ys =>
      rw [commonPrefixLen]
      by_cases h : x = y
      · simp only [if_pos h, List.length_cons]
        have := ih ys
        omega
      · simp [h]

theorem commonPrefixLen_take :
    ∀ (a b : List Nat), a.take (commonPrefixLen a b) = b.take (commonPrefixLen a b) := by
  intro a
  induction a with
  | nil => intro b; cases b <;> simp [commonPrefixLen]
  | cons x xs ih =>
    intro b
    cases b with
    | nil => simp [commonPrefixLen]
    | cons y ys =>
      rw [commonPrefixLen]
      by_cases h : x = y
      · subst h
        have hif : (if x = x then commonPrefixLen xs ys + 1 else 0) =
            commonPrefixLen xs ys + 1 := by simp
        rw [hif, List.take_succ_cons, List.take_succ_cons, ih ys]
      · simp [h]

theorem chunksOf_proj (R : Nat) :
    ∀ (L : List (List Nat × List Nat)) (counter : Nat) (lk : List Nat),
      (chunksOf R counter lk L).map (fun c => (c.key, c.value)) = L := by
  intro L
  induction L with
  | nil => intro counter lk; simp [chunksOf]
  | cons p rest ih =>
    intro counter lk
    obtain ⟨k, v⟩ := p
    rw [chunksOf]
    by_cases h : counter < R
    · simp only [if_pos h, List.map_cons, ih]
    · simp only [if_neg h, List.map_cons, ih]

theorem chunksOf_mem (R : Nat) :
    ∀ (L : List (List Nat × List Nat)) (counter : Nat) (lk : List Nat) (c : Chunk),
      c ∈ chunksOf R counter lk L → (c.key, c.value) ∈ L := by
  intro L
  induction L with
  | nil => intro counter lk c h; simp [chunksOf] at h
  | cons p rest ih =>
    intro counter lk c hmem
    obtain ⟨k, v⟩ := p
    rw [chunksOf] at hmem
    by_cases h : counter < R
    · rw [if_pos h] at hmem
      rcases List.mem_cons.mp hmem with h1 | h1
      · subst h1; simp
      · exact List.mem_cons_of_mem _ (ih _ _ _ h1)
    · rw [if_neg h] at hmem
      rcases List.mem_cons.mp hmem with h1 | h1
      · subst h1; simp
      · exact List.mem_cons_of_mem _ (ih _ _ _ h1)

theorem restartOffsets_ge :
    ∀ (cs : List Chunk) (off p : Nat), p ∈ restartOffsets off cs → off ≤ p := by
  intro cs
  induction cs with
  | nil => intro off p h; simp [restartOffsets] at h
  | cons c rest ih =>
    intro off p hmem
    rw [restartOffsets] at hmem
    by_cases h : c.restart
    · rw [if_pos h] at hmem
      rcases List.mem_cons.mp hmem with h1 | h1
      · omega
      · have := ih _ _ h1; omega
    · rw [if_neg h] at hmem
      have := ih _ _ hmem; omega

theorem restartOffsets_lt :
    ∀ (cs : List Chunk) (off p : Nat),
      p ∈ restartOffsets off cs → p < off + (chunksBytes cs).length := by
  intro cs
  induction cs with
  | nil => intro off p h; simp [restartOffsets] at h
  | cons c rest ih =>
    intro off p hmem
    have hc3 := chunkBytes_len c
    rw [restartOffsets] at hmem
    rw [chunksBytes_cons, List.length_append]
    by_cases h : c.restart
    · rw [if_pos h] at hmem
      rcases List.mem_cons.mp hmem with h1 | h1
      · omega
      · have := ih _ _ h1; omega
    · rw [if_neg h] at hmem
      have := ih _ _ hmem; omega

/-! ## The builder characterization (`DataBlockBuilder::add` folded) -/

theorem addAll_eq :
    ∀ (L : List (List Nat × List Nat)) (b : DataBlockBuilder),
      b.finished = false →
      b.counter ≤ b.restartInterval →
      1 ≤ b.restartInterval →
      b.buffer.length +
        (chunksBytes (chunksOf b.restartInterval b.counter b.lastKey L)).length < 4294967295 →
      ∃ b', addAll b L = some b' ∧
        b'.buffer = b.buffer ++ chunksBytes (chunksOf b.restartInterval b.counter b.lastKey L) ∧
        b'.restarts = b.restarts ++
          restartOffsets b.buffer.length (chunksOf b.restartInterval b.counter b.lastKey L) ∧
        b'.finished = false ∧
        b'.restartInterval = b.restartInterval := by
  intro L
  induction L with
  | nil =>
    intro b hfin hctr hR _
    refine ⟨b, rfl, ?_, ?_, hfin, rfl⟩ <;> simp [chunksOf, chunksBytes, restartOffsets]
  | cons p rest ih =>
    intro b hfin hctr hR hsize
    obtain ⟨k, v⟩ := p
    rw [chunksOf] at hsize ⊢
    by_cases hc : b.counter < b.restartInterval
    · rw [if_pos hc] at hsize ⊢
      set c : Chunk := ⟨false, commonPrefixLen b.lastKey k, k, v⟩ with hcdef
      rw [chunksBytes_cons] at hsize
      have hc3 := chunkBytes_len c
      have hbuf : b.buffer.length < 4294967295 := by
        rw [List.length_append] at hsize; omega
      have hadd : b.add k v = some
          { buffer := b.buffer ++ c.bytes,
            restarts := b.restarts, counter := b.counter + 1,
            restartInterval := b.restartInterval, lastKey := k, finished := false } := by
        rw [DataBlockBuilder.add, if_neg (by rw [hfin]; exact Bool.false_ne_true),
            if_neg (by simp [hctr]), if_neg (by simp [hbuf]), if_pos hc]
        simp [hcdef, Chunk.bytes]
      rw [addAll, hadd, Option.some_bind]
      obtain ⟨b', hb', hbuf', hres', hfin', hint'⟩ := ih
        { buffer := b.buffer ++ c.bytes,
          restarts := b.restarts, counter := b.counter + 1,
          restartInterval := b.restartInterval, lastKey := k, finished := false }
        rfl (by dsimp only; omega) hR
        (by dsimp only; simp only [List.length_append, Nat.zero_add] at hsize ⊢; omega)
      dsimp only at hbuf' hres'
      refine ⟨b', hb', ?_, ?_, hfin', hint'⟩
      · rw [hbuf', chunksBytes_cons, List.append_assoc]
      · rw [hres', restartOffsets]
        have hcr : c.restart = false := rfl
        rw [hcr]
        simp [List.length_append]
    · rw [if_neg hc] at hsize ⊢
      set c : Chunk := ⟨true, 0, k, v⟩ with hcdef
      rw [chunksBytes_cons] at hsize
      have hc3 := chunkBytes_len c
      have hbuf : b.buffer.length < 4294967295 := by
        rw [List.length_append] at hsize; omega
      have hmodbuf : u32Mod b.buffer.length = b.buffer.length :=
        Nat.mod_eq_of_lt (by omega)
      have hadd : b.add k v = some
          { buffer := b.buffer ++ c.bytes,
            restarts := b.restarts ++ [b.buffer.length], counter := 0 + 1,
            restartInterval := b.restartInterval, lastKey := k, finished := false } := by
        rw [DataBlockBuilder.add, if_neg (by rw [hfin]; exact Bool.false_ne_true),
            if_neg (by simp [hctr]), if_neg (by simp [hbuf]), if_neg hc]
        simp [hcdef, Chunk.bytes, hmodbuf]
      rw [addAll, hadd, Option.some_bind]
      obtain ⟨b', hb', hbuf', hres', hfin', hint'⟩ := ih
        { buffer := b.buffer ++ c.bytes,
          restarts := b.restarts ++ [b.buffer.length], counter := 0 + 1,
          restartInterval := b.restartInterval, lastKey := k, finished := false }
        rfl (by dsimp only; omega) hR
        (by dsimp only; simp only [List.length_append, Nat.zero_add] at hsize ⊢; omega)
      dsimp only at hbuf' hres'
      refine ⟨b', hb', ?_, ?_, hfin', hint'⟩
      · rw [hbuf', chunksBytes_cons, List.append_assoc]
      · rw [hres', restartOffsets]
        have hcr : c.restart = true := rfl
        rw [hcr]
        simp [List.length_append]

/-! ## The data-block parser on builder chunks -/

theorem exceptBind_ok {α β ε : Type} (a : α) (f : α → Except ε β) :
    (Except.ok a >>= f : Except ε β) = f a := rfl

theorem readVarint32_enc_at (data pre post : List Nat) (v p : Nat)
    (hdata : data = pre ++ (encVarint v ++ post))
    (hp : p = pre.length) (hv : v < 4294967296) :
    readVarint32 data p = .ok (v, p + (encVarint v).length) := by
  subst hdata hp
  exact readVarint32_enc v pre post hv

theorem sliceExtract_at (data pre mid post : List Nat) (p n : Nat)
    (hdata : data = pre ++ (mid ++ post)) (hp : p = pre.length) (hn : n = mid.length) :
    (data.drop p).take n = mid := by
  subst hdata hp hn
  exact sliceExtract pre mid post

theorem u32Mod_lt (n : Nat) : u32Mod n < 4294967296 := Nat.mod_lt _ (by omega)

theorem keyStepEval (data pre mid post keyStart : List Nat) (q n : Nat)
    (hdata : data = pre ++ (mid ++ post)) (hq : q = pre.length) (hn : n = mid.length) :
    DataBlock.keyStep data keyStart q n = .ok (keyStart ++ mid, q + n) := by
  rw [DataBlock.keyStep]
  by_cases hns : 0 < n
  · rw [if_pos hns]
    have hb : ¬ data.length < q + n := by
      subst hdata hq hn
      simp [List.length_append]
    rw [if_neg hb, sliceExtract_at data pre mid post q n hdata hq hn]
  · rw [if_neg hns]
    have h0 : n = 0 := by omega
    have hmid : mid = [] := by
      subst h0
      exact List.length_eq_zero.mp hn.symm
    subst hmid h0
    simp

theorem valueStepEval (data pre mid post : List Nat) (q n : Nat)
    (hdata : data = pre ++ (mid ++ post)) (hq : q = pre.length) (hn : n = mid.length) :
    DataBlock.valueStep data q n = .ok (mid, q + n) := by
  rw [DataBlock.valueStep]
  by_cases hns : 0 < n
  · rw [if_pos hns]
    have hb : ¬ data.length < q + n := by
      subst hdata hq hn
      simp [List.length_append]
    rw [if_neg hb, sliceExtract_at data pre mid post q n hdata hq hn]
  · rw [if_neg hns]
    have h0 : n = 0 := by omega
    have hmid : mid = [] := by
      subst h0
      exact List.length_eq_zero.mp hn.symm
    subst hmid h0
    simp

theorem getEntriesGo_chunks :
    ∀ (cs : List Chunk) (blk : DataBlock) (pre post lk : List Nat) (fuel : Nat),
      blk.data = pre ++ (chunksBytes cs ++ post) →
      blk.restartOffset = pre.length + (chunksBytes cs).length →
      ChunksParseOk blk.restartPoints pre.length lk cs →
      cs.length ≤ fuel →
      DataBlock.getEntriesGo blk fuel pre.length lk =
        .ok (cs.map fun c => (c.key, c.value)) := by
  intro cs
  induction cs with
  | nil =>
    intro blk pre post lk fuel hdata hro _ _
    rw [DataBlock.getEntriesGo.eq_def, hro]
    simp [chunksBytes_nil]
  | cons c cs ih =>
    intro cblk pre post lk fuel hdata hro hpo hfuel
    obtain ⟨hq, hsh, hkl, hvl, hlkl, hshk, hdisj, htail⟩ := hpo
    cases fuel with
    | zero => simp at hfuel
    | succ f =>
    have hc3 := chunkBytes_len c
    have hlt : pre.length < cblk.restartOffset := by
      rw [hro, chunksBytes_cons, List.length_append]
      omega
    have hmsh : u32Mod c.shared = c.shared := Nat.mod_eq_of_lt hsh
    have hmns : u32Mod (c.key.length - c.shared) = c.key.length - c.shared :=
      Nat.mod_eq_of_lt (by omega)
    have hmvl : u32Mod c.value.length = c.value.length := Nat.mod_eq_of_lt hvl
    have hbytes : c.bytes = encVarint c.shared ++
        (encVarint (c.key.length - c.shared) ++
         (encVarint c.value.length ++ (c.key.drop c.shared ++ c.value))) := by
      simp [Chunk.bytes, hmsh, hmns, hmvl]
    have hdata1 : cblk.data = pre ++ (encVarint c.shared ++
        (encVarint (c.key.length - c.shared) ++
         (encVarint c.value.length ++
          (c.key.drop c.shared ++ (c.value ++ (chunksBytes cs ++ post)))))) := by
      rw [hdata, chunksBytes_cons, hbytes]
      simp [List.append_assoc]
    have hv1 : readVarint32 cblk.data pre.length =
        .ok (c.shared, pre.length + (encVarint c.shared).length) :=
      readVarint32_enc_at cblk.data pre
        (encVarint (c.key.length - c.shared) ++
         (encVarint c.value.length ++
          (c.key.drop c.shared ++ (c.value ++ (chunksBytes cs ++ post)))))
        c.shared pre.length hdata1 rfl hsh
    have hv2 : readVarint32 cblk.data (pre.length + (encVarint c.shared).length) =
        .ok (c.key.length - c.shared,
             pre.length + (encVarint c.shared).length +
               (encVarint (c.key.length - c.shared)).length) := by
      have h := readVarint32_enc_at cblk.data (pre ++ encVarint c.shared)
        (encVarint c.value.length ++
          (c.key.drop c.shared ++ (c.value ++ (chunksBytes cs ++ post))))
        (c.key.length - c.shared)
        (pre.length + (encVarint c.shared).length)
        (by rw [hdata1]; simp [List.append_assoc])
        (by simp) (by omega)
      exact h
    have hv3 : readVarint32 cblk.data
        (pre.length + (encVarint c.shared).length +
          (encVarint (c.key.length - c.shared)).length) =
        .ok (c.value.length,
             pre.length + (encVarint c.shared).length +
               (encVarint (c.key.length - c.shared)).length +
               (encVarint c.value.length).length) := by
      have h := readVarint32_enc_at cblk.data
        (pre ++ encVarint c.shared ++ encVarint (c.key.length - c.shared))
        (c.key.drop c.shared ++ (c.value ++ (chunksBytes cs ++ post)))
        c.value.length
        (pre.length + (encVarint c.shared).length +
          (encVarint (c.key.length - c.shared)).length)
        (by rw [hdata1]; simp [List.append_assoc])
        (by simp only [List.length_append]) hvl
      exact h
    have hqm : u32Mod pre.length = pre.length := Nat.mod_eq_of_lt hq
    have hkeystep := keyStepEval cblk.data
      (pre ++ encVarint c.shared ++ encVarint (c.key.length - c.shared) ++
        encVarint c.value.length)
      (c.key.drop c.shared) (c.value ++ (chunksBytes cs ++ post))
    have hvaluestep := valueStepEval cblk.data
      (pre ++ encVarint c.shared ++ encVarint (c.key.length - c.shared) ++
        encVarint c.value.length ++ c.key.drop c.shared)
      c.value (chunksBytes cs ++ post)
    have hrec : DataBlock.getEntriesGo cblk f
        (pre.length + (encVarint c.shared).length +
          (encVarint (c.key.length - c.shared)).length +
          (encVarint c.value.length).length +
          (c.key.length - c.shared) + c.value.length) c.key =
        .ok (cs.map fun ch => (ch.key, ch.value)) := by
      have hreclen : (pre ++ c.bytes).length =
          pre.length + (encVarint c.shared).length +
            (encVarint (c.key.length - c.shared)).length +
            (encVarint c.value.length).length +
            (c.key.length - c.shared) + c.value.length := by
        rw [List.length_append, hbytes]
        simp only [List.length_append, List.length_drop]
        omega
      have h := ih cblk (pre ++ c.bytes) post c.key f
        (by rw [hdata, chunksBytes_cons]; simp [List.append_assoc])
        (by rw [hro, chunksBytes_cons]; simp only [List.length_append]; omega)
        (by
          have h2 : (pre ++ c.bytes).length = pre.length + c.bytes.length := by
            simp [List.length_append]
          rw [h2]
          exact htail)
        (by simpa using hfuel)
      rw [hreclen] at h
      exact h
    rw [DataBlock.getEntriesGo.eq_2]
    rw [if_pos hlt]
    simp only [hqm]
    rcases hdisj with ⟨hcont, hsh0⟩ | ⟨hcont, hshle, htake⟩
    · have hrp : cblk.isRestartPoint pre.length = true := hcont
      simp only [hrp, if_true]
      have hcheck : ¬ u32Mod (List.length ([] : List Nat)) < c.shared := by
        simp [u32Mod, hsh0]
      simp only [hv1, exceptBind_ok, hv2, hv3]
      rw [if_neg hcheck]
      have htk : (List.take c.shared ([] : List Nat)) = c.key.take c.shared := by
        simp [hsh0]
      simp only [htk]
      rw [hkeystep (c.key.take c.shared) _ _
        (by rw [hdata1]; simp [List.append_assoc])
        (by simp only [List.length_append]; try omega) (by simp [List.length_drop])]
      simp only [exceptBind_ok, List.take_append_drop]
      rw [hvaluestep _ _
        (by rw [hdata1]; simp [List.append_assoc])
        (by simp only [List.length_append, List.length_drop]; try omega) rfl]
      simp only [exceptBind_ok, hrec]
      simp
    · have hrp : cblk.isRestartPoint pre.length = false := hcont
      simp only [hrp, Bool.false_eq_true, if_false]
      have hcheck : ¬ u32Mod lk.length < c.shared := by
        have hl : u32Mod lk.length = lk.length := Nat.mod_eq_of_lt hlkl
        omega
      simp only [hv1, exceptBind_ok, hv2, hv3]
      rw [if_neg hcheck]
      simp only [htake]
      rw [hkeystep (c.key.take c.shared) _ _
        (by rw [hdata1]; simp [List.append_assoc])
        (by simp only [List.length_append]; try omega) (by simp [List.length_drop])]
      simp only [exceptBind_ok, List.take_append_drop]
      rw [hvaluestep _ _
        (by rw [hdata1]; simp [List.append_assoc])
        (by simp only [List.length_append, List.length_drop]; try omega) rfl]
      simp only [exceptBind_ok, hrec]
      simp

/-! ## Building the restart-set invariant for builder output -/

theorem chunksParseOk_go (R : Nat) (hR : 1 ≤ R) (Rset : List Nat) :
    ∀ (L : List (List Nat × List Nat)) (counter q : Nat) (lk : List Nat),
      counter ≤ R →
      q < 4294967296 →
      lk.length < 4294967296 →
      (∀ p ∈ L, p.1.length < 4294967296 ∧ p.2.length < 4294967296) →
      q + (chunksBytes (chunksOf R counter lk L)).length < 4294967296 →
      (∀ p, q ≤ p →
        (Rset.contains p = true ↔ p ∈ restartOffsets q (chunksOf R counter lk L))) →
      ChunksParseOk Rset q lk (chunksOf R counter lk L) := by
  intro L
  induction L with
  | nil =>
    intro counter q lk _ _ _ _ _ _
    simp [chunksOf, ChunksParseOk]
  | cons p rest ih =>
    intro counter q lk hctr hq hlk hKV hsize hmem
    obtain ⟨k, v⟩ := p
    have hk : k.length < 4294967296 := (hKV (k, v) (by simp)).1
    have hv : v.length < 4294967296 := (hKV (k, v) (by simp)).2
    rw [chunksOf] at hsize hmem ⊢
    by_cases hc : counter < R
    · rw [if_pos hc] at hsize hmem ⊢
      set c : Chunk := ⟨false, commonPrefixLen lk k, k, v⟩ with hcdef
      have hc3 := chunkBytes_len c
      rw [chunksBytes_cons, List.length_append] at hsize
      have hro : restartOffsets q (c :: chunksOf R (counter + 1) k rest) =
          restartOffsets (q + c.bytes.length) (chunksOf R (counter + 1) k rest) := by
        rw [restartOffsets]
        simp [hcdef]
      rw [ChunksParseOk]
      refine ⟨hq, ?_, hk, hv, hlk, commonPrefixLen_le_right lk k, ?_, ?_⟩
      · have := commonPrefixLen_le_left lk k
        simp only [hcdef]
        omega
      · right
        refine ⟨?_, commonPrefixLen_le_left lk k, commonPrefixLen_take lk k⟩
        have hiff := hmem q (le_refl q)
        rw [hro] at hiff
        by_cases hcq : Rset.contains q = true
        · exfalso
          have hin := hiff.mp hcq
          have := restartOffsets_ge _ _ _ hin
          omega
        · simpa using hcq
      · exact ih (counter + 1) (q + c.bytes.length) k (by omega) (by omega) hk
          (fun x hx => hKV x (by simp [hx])) (by omega)
          (fun x hx => by
            have := hmem x (by omega)
            rw [hro] at this
            exact this)
    · rw [if_neg hc] at hsize hmem ⊢
      set c : Chunk := ⟨true, 0, k, v⟩ with hcdef
      have hc3 := chunkBytes_len c
      rw [chunksBytes_cons, List.length_append] at hsize
      have hro : restartOffsets q (c :: chunksOf R 1 k rest) =
          q :: restartOffsets (q + c.bytes.length) (chunksOf R 1 k rest) := by
        rw [restartOffsets]
        simp [hcdef]
      rw [ChunksParseOk]
      refine ⟨hq, by simp [hcdef], hk, hv, hlk, by simp [hcdef], ?_, ?_⟩
      · left
        refine ⟨?_, rfl⟩
        have hiff := hmem q (le_refl q)
        rw [hro] at hiff
        exact hiff.mpr (by simp)
      · exact ih 1 (q + c.bytes.length) k hR (by omega) hk
          (fun x hx => hKV x (by simp [hx])) (by omega)
          (fun x hx => by
            have h := hmem x (by omega)
            rw [hro] at h
            rw [h]
            constructor
            · intro hin
              rcases List.mem_cons.mp hin with h1 | h1
              · omega
              · exact h1
            · intro hin
              exact List.mem_cons_of_mem _ hin)

theorem chunksParseOk_top (R : Nat) (hR : 1 ≤ R) (L : List (List Nat × List Nat))
    (hKV : ∀ p ∈ L, p.1.length < 4294967296 ∧ p.2.length < 4294967296)
    (hsize : (chunksBytes (chunksOf R 0 [] L)).length < 4294967296) :
    ChunksParseOk (0 :: restartOffsets 0 (chunksOf R 0 [] L)) 0 [] (chunksOf R 0 [] L) := by
  cases L with
  | nil => simp [chunksOf, ChunksParseOk]
  | cons p rest =>
    obtain ⟨k, v⟩ := p
    have hk : k.length < 4294967296 := (hKV (k, v) (by simp)).1
    have hv : v.length < 4294967296 := (hKV (k, v) (by simp)).2
    rw [chunksOf] at hsize ⊢
    rw [if_pos (by omega : 0 < R)] at hsize ⊢
    simp only [Nat.zero_add] at hsize ⊢
    set c : Chunk := ⟨false, commonPrefixLen [] k, k, v⟩ with hcdef
    have hc3 := chunkBytes_len c
    rw [chunksBytes_cons, List.length_append] at hsize
    have hsh0 : commonPrefixLen [] k = 0 := by cases k <;> rfl
    have hro : restartOffsets 0 (c :: chunksOf R 1 k rest) =
        restartOffsets (0 + c.bytes.length) (chunksOf R 1 k rest) := by
      rw [restartOffsets]
      simp [hcdef]
    rw [ChunksParseOk]
    refine ⟨by omega, by simp [hcdef, hsh0], hk, hv, by simp, ?_, ?_, ?_⟩
    · simp [hcdef, hsh0]
    · left
      constructor
      · simp
      · simp [hcdef, hsh0]
    · simp only [Nat.zero_add] at hro
      simp only [Nat.zero_add]
      apply chunksParseOk_go R hR _ rest 1 c.bytes.length k hR (by omega) hk
        (fun x hx => hKV x (by simp [hx])) (by omega)
      intro x hx
      rw [hro]
      constructor
      · intro hin
        have hmem2 := List.elem_iff.mp hin
        rcases List.mem_cons.mp hmem2 with h1 | h1
        · omega
        · exact h1
      · intro hin
        apply List.elem_iff.mpr
        exact List.mem_cons_of_mem _ hin

/-! ## Assembling a finished block and parsing it back -/

theorem u32LE_length (n : Nat) : (u32LE n).length = 4 := rfl

theorem flattenU32LE_length : ∀ (rs : List Nat), ((rs.map u32LE).flatten).length = 4 * rs.length
  | [] => by simp
  | r :: rest => by
    simp [flattenU32LE_length rest, u32LE_length]
    omega

theorem chunksBytes_len_ge : ∀ (cs : List Chunk), 3 * cs.length ≤ (chunksBytes cs).length
  | [] => by simp [chunksBytes_nil]
  | c :: cs => by
    rw [chunksBytes_cons, List.length_append, List.length_cons]
    have h1 := chunkBytes_len c
    have h2 := chunksBytes_len_ge cs
    omega

theorem restartOffsets_length_le :
    ∀ (cs : List Chunk) (off : Nat), (restartOffsets off cs).length ≤ cs.length
  | [], _ => by simp [restartOffsets]
  | c :: cs, off => by
    rw [restartOffsets]
    by_cases h : c.restart
    · rw [if_pos h]
      have := restartOffsets_length_le cs (off + c.bytes.length)
      simp
      omega
    · rw [if_neg h]
      have := restartOffsets_length_le cs (off + c.bytes.length)
      simp
      omega

theorem decompress_none (data : List Nat) : decompress data .none = .ok data := rfl

theorem finish_none_eq (b : DataBlockBuilder) (csum : ChecksumType)
    (fileOffset baseContextChecksum : Option Nat) (hfin : b.finished = false) :
    b.finish .none csum fileOffset baseContextChecksum =
      .ok (b.finishPayload ++ [CompressionType.none.tag] ++
        u32LE (blockTrailerChecksum csum .none fileOffset baseContextChecksum
          b.finishPayload)) := by
  rw [DataBlockBuilder.finish, if_neg (by rw [hfin]; exact Bool.false_ne_true), if_pos rfl]

theorem dataBlockNew_payload (body rs trailer : List Nat)
    (htr : trailer.length = 5)
    (hrs1 : 1 ≤ rs.length) (hrslt : rs.length < 4294967296)
    (hrlt : ∀ r ∈ rs, r < 4294967296) :
    DataBlock.new ((body ++ ((rs.map u32LE).flatten ++ u32LE (u32Mod rs.length))) ++ trailer)
      .none =
      .ok ⟨body ++ ((rs.map u32LE).flatten ++ u32LE (u32Mod rs.length)),
           body.length, rs.length, rs⟩ := by
  set payload := body ++ ((rs.map u32LE).flatten ++ u32LE (u32Mod rs.length)) with hpay
  have hflat : ((rs.map u32LE).flatten).length = 4 * rs.length := flattenU32LE_length rs
  have hplen : payload.length = body.length + 4 * rs.length + 4 := by
    rw [hpay]
    simp [List.length_append, hflat, u32LE_length]
    omega
  have htotal : (payload ++ trailer).length = payload.length + 5 := by
    rw [List.length_append, htr]
  rw [DataBlock.new]
  simp only [decompress_none, exceptBind_ok]
  rw [if_pos (by omega : 5 ≤ (payload ++ trailer).length)]
  have hidx : (payload ++ trailer).length - 5 = payload.length := by omega
  rw [hidx, List.take_left]
  rw [if_neg (by omega : ¬ payload.length < 4)]
  have hnum : readU32LE payload (payload.length - 4) = rs.length := by
    have h := readU32LE_append (body ++ (rs.map u32LE).flatten) [] (u32Mod rs.length)
    have hpre : (body ++ (rs.map u32LE).flatten).length = body.length + 4 * rs.length := by
      simp [List.length_append, hflat]
    have heq : (body ++ (rs.map u32LE).flatten) ++ (u32LE (u32Mod rs.length) ++ []) =
        payload := by
      rw [hpay]
      simp [List.append_assoc]
    rw [heq, hpre] at h
    have hmod : u32Mod rs.length % 4294967296 = rs.length := by
      have : u32Mod rs.length = rs.length := Nat.mod_eq_of_lt hrslt
      omega
    rw [hmod] at h
    have hpos : payload.length - 4 = body.length + 4 * rs.length := by omega
    rw [hpos]
    exact h
  simp only [hnum]
  rw [if_neg (by omega : ¬ rs.length = 0)]
  rw [if_neg (by omega : ¬ payload.length < 4 + rs.length * 4)]
  have hro : payload.length - 4 - rs.length * 4 = body.length := by omega
  simp only [hro]
  rw [if_neg (by omega : ¬ payload.length ≤ body.length)]
  have harr : (List.range rs.length).map (fun i => readU32LE payload (body.length + 4 * i)) =
      rs := by
    have h := readRestartArray rs body (u32LE (u32Mod rs.length)) hrlt
    rw [← hpay] at h
    exact h
  rw [harr]

/-- C2 (amended): block-codec roundtrip for every restart interval R ≥ 1. -/
theorem block_roundtrip (L : List (List Nat × List Nat)) (R : Nat)
    (csum : ChecksumType) (fileOffset baseContextChecksum : Option Nat)
    (hR : 1 ≤ R)
    (hsorted : L.Chain' (fun a b => bytesCompare a.1 b.1 = .lt))
    (hKV : ∀ p ∈ L, p.1.length < 4294967296 ∧ p.2.length < 4294967296)
    (hsize : (chunksBytes (chunksOf R 0 [] L)).length < 4294967295) :
    ∃ b bytes,
      addAll (DataBlockBuilder.new R) L = some b ∧
      b.finish .none csum fileOffset baseContextChecksum = .ok bytes ∧
      (DataBlock.new bytes .none).bind DataBlock.getEntries = .ok L := by
  obtain ⟨b, hb, hbuf, hres, hfin, hint⟩ := addAll_eq L (DataBlockBuilder.new R)
    rfl (by simp [DataBlockBuilder.new]) (by simpa [DataBlockBuilder.new] using hR)
    (by simpa [DataBlockBuilder.new] using hsize)
  simp only [DataBlockBuilder.new] at hbuf hres
  rw [List.nil_append] at hbuf
  have hres2 : b.restarts = 0 :: restartOffsets 0 (chunksOf R 0 [] L) := by
    rw [hres]
    rfl
  have hCSlen : 3 * (chunksOf R 0 [] L).length ≤
      (chunksBytes (chunksOf R 0 [] L)).length := chunksBytes_len_ge _
  have hrestlen : (restartOffsets 0 (chunksOf R 0 [] L)).length ≤
      (chunksOf R 0 [] L).length := restartOffsets_length_le _ 0
  have hrslt : b.restarts.length < 4294967296 := by
    rw [hres2]
    simp only [List.length_cons]
    omega
  have hrlt : ∀ r ∈ b.restarts, r < 4294967296 := by
    rw [hres2]
    intro r hr
    rcases List.mem_cons.mp hr with h1 | h1
    · omega
    · have := restartOffsets_lt _ _ _ h1
      omega
  refine ⟨b, b.finishPayload ++ [CompressionType.none.tag] ++
      u32LE (blockTrailerChecksum csum .none fileOffset baseContextChecksum b.finishPayload),
    hb, finish_none_eq b csum fileOffset baseContextChecksum hfin, ?_⟩
  have hpayload : b.finishPayload ++ [CompressionType.none.tag] ++
      u32LE (blockTrailerChecksum csum .none fileOffset baseContextChecksum b.finishPayload) =
      (chunksBytes (chunksOf R 0 [] L) ++
        ((b.restarts.map u32LE).flatten ++ u32LE (u32Mod b.restarts.length))) ++
      ([CompressionType.none.tag] ++
        u32LE (blockTrailerChecksum csum .none fileOffset baseContextChecksum
          b.finishPayload)) := by
    rw [DataBlockBuilder.finishPayload, hbuf]
    simp [List.append_assoc]
  rw [hpayload]
  rw [dataBlockNew_payload (chunksBytes (chunksOf R 0 [] L)) b.restarts _
    (by simp [u32LE_length]) (by rw [hres2]; simp) hrslt hrlt]
  have hbind : ∀ (blk : DataBlock),
      (Except.ok blk : Except Err DataBlock).bind DataBlock.getEntries =
        blk.getEntries := fun _ => rfl
  rw [hbind]
  rw [DataBlock.getEntries]
  have hgo := getEntriesGo_chunks (chunksOf R 0 [] L)
    ⟨chunksBytes (chunksOf R 0 [] L) ++
        ((b.restarts.map u32LE).flatten ++ u32LE (u32Mod b.restarts.length)),
      (chunksBytes (chunksOf R 0 [] L)).length, b.restarts.length, b.restarts⟩
    [] ((b.restarts.map u32LE).flatten ++ u32LE (u32Mod b.restarts.length)) []
    ((chunksBytes (chunksOf R 0 [] L)).length + 1)
    (by rfl) (by simp) ?_ (by omega)
  · simp only [List.length_nil] at hgo
    dsimp only
    rw [hgo, chunksOf_proj]
  · show ChunksParseOk b.restarts 0 [] (chunksOf R 0 [] L)
    rw [hres2]
    exact chunksParseOk_top R hR L hKV (by omega)

/-! ## Decoding a canonically encoded varint (block_handle.rs loop) -/

theorem encVarint_length_succ (v : Nat) (h : ¬ v < 128) :
    (encVarint v).length = (encVarint (v / 128)).length + 1 := by
  rw [encVarint_unfold, if_neg h]
  simp

theorem encVarint_length_le : ∀ (k v : Nat), 1 ≤ k → v < 128 ^ k →
    (encVarint v).length ≤ k := by
  intro k
  induction k with
  | zero => intro v h; omega
  | succ k ih =>
    intro v _ hv
    by_cases h : v < 128
    · rw [encVarint_unfold, if_pos h]
      simp
    · rw [encVarint_length_succ v h]
      have hk : 1 ≤ k := by
        by_contra hk0
        have hk1 : k = 0 := by omega
        subst hk1
        simp [pow_one] at hv
        omega
      have hdv : v / 128 < 128 ^ k := by
        rw [Nat.div_lt_iff_lt_mul (by omega)]
        calc v < 128 ^ (k + 1) := hv
        _ = 128 ^ k * 128 := by rw [pow_succ]
      have := ih (v / 128) hk hdv
      omega

theorem readVarint64Go_succ (data : List Nat) (pos shift acc fuel : Nat) :
    readVarint64Go data pos shift acc (fuel + 1) =
      if pos < data.length then
        let byte := data.getD pos 0 % 256
        if byte / 128 % 2 = 0 then
          .ok (acc ||| u64Mod (byte <<< shift), pos + 1)
        else
          readVarint64Go data (pos + 1) (shift + 7)
            (acc ||| u64Mod ((byte % 128) <<< shift)) fuel
      else .error (.ioError "read_u8 past end of slice") := rfl

theorem readVarint64Go_enc :
    ∀ (v : Nat) (pre post : List Nat) (shift acc fuel : Nat),
      acc < 2 ^ shift →
      v * 2 ^ shift + acc < 18446744073709551616 →
      (encVarint v).length ≤ fuel →
      readVarint64Go (pre ++ (encVarint v ++ post)) pre.length shift acc fuel =
        .ok (v * 2 ^ shift + acc, pre.length + (encVarint v).length) := by
  intro v
  induction v using Nat.strong_induction_on with
  | _ v ih =>
    intro pre post shift acc fuel hacc hv hfuel
    have hlp := encVarint_length_pos v
    match fuel with
    | 0 => omega
    | fuel + 1 =>
      have hlen : pre.length < (pre ++ (encVarint v ++ post)).length := by
        simp [List.length_append]
        omega
      rw [readVarint64Go_succ, if_pos hlen]
      rw [encVarint_unfold]
      by_cases h128 : v < 128
      · simp only [if_pos h128]
        have hbyte : (pre ++ ([v] ++ post)).getD pre.length 0 % 256 = v := by
          rw [getD_append_self]
          simp [Nat.mod_eq_of_lt (show v < 256 by omega)]
        simp only [hbyte]
        have hdiv : v / 128 % 2 = 0 := by omega
        have hshl : u64Mod (v <<< shift) = v * 2 ^ shift := by
          rw [Nat.shiftLeft_eq]
          exact Nat.mod_eq_of_lt (by omega)
        rw [hshl, hdiv]
        simp only [if_pos rfl]
        rw [lor_mul_two_pow v shift hacc, Nat.add_comm acc (v * 2 ^ shift)]
        simp
      · simp only [if_neg h128]
        have hbyte : (pre ++ ((v % 128 + 128) :: encVarint (v / 128) ++ post)).getD pre.length 0
            % 256 = v % 128 + 128 := by
          rw [getD_append_self]
          have : v % 128 < 128 := Nat.mod_lt _ (by omega)
          simp [Nat.mod_eq_of_lt (show v % 128 + 128 < 256 by omega)]
        simp only [hbyte]
        have hmod : (v % 128 + 128) % 128 = v % 128 := by omega
        have hshl : u64Mod (((v % 128 + 128) % 128) <<< shift) = v % 128 * 2 ^ shift := by
          rw [hmod, Nat.shiftLeft_eq]
          refine Nat.mod_eq_of_lt ?_
          have : v % 128 * 2 ^ shift ≤ v * 2 ^ shift :=
            Nat.mul_le_mul_right _ (Nat.mod_le _ _)
          omega
        have hdiv : (v % 128 + 128) / 128 % 2 = 1 := by omega
        rw [hshl, hdiv, lor_mul_two_pow (v % 128) shift hacc]
        simp only [one_ne_zero, if_false]
        have hassoc : pre ++ ((v % 128 + 128) :: encVarint (v / 128) ++ post) =
            (pre ++ [v % 128 + 128]) ++ (encVarint (v / 128) ++ post) := by
          simp
        have hpos : pre.length + 1 = (pre ++ [v % 128 + 128]).length := by
          simp
        rw [hassoc, hpos]
        have hdivlt : v / 128 < v := Nat.div_lt_self (by omega) (by omega)
        have h3 : (2 : Nat) ^ (shift + 7) = 2 ^ shift * 128 := by
          rw [Nat.pow_add]
        have hacc2 : acc + v % 128 * 2 ^ shift < 2 ^ (shift + 7) := by
          have h1 : v % 128 ≤ 127 := by omega
          have h2 : v % 128 * 2 ^ shift ≤ 127 * 2 ^ shift :=
            Nat.mul_le_mul_right _ h1
          omega
        have hval : v / 128 * 2 ^ (shift + 7) + (acc + v % 128 * 2 ^ shift) =
            v * 2 ^ shift + acc := by
          rw [h3]
          nlinarith [Nat.div_add_mod v 128]
        have hflen : (encVarint (v / 128)).length ≤ fuel := by
          have := encVarint_length_succ v h128
          omega
        have hrec := ih (v / 128) hdivlt (pre ++ [v % 128 + 128]) post (shift + 7)
          (acc + v % 128 * 2 ^ shift) fuel hacc2 (by omega) hflen
        rw [hrec, hval]
        have hfin : (pre ++ [v % 128 + 128]).length + (encVarint (v / 128)).length =
            pre.length + ((v % 128 + 128) :: encVarint (v / 128)).length := by
          simp
          try omega
        rw [hfin]

theorem readVarint64_enc (v : Nat) (pre post : List Nat)
    (hv : v < 18446744073709551616) :
    readVarint64 (pre ++ (encVarint v ++ post)) pre.length =
      .ok (v, pre.length + (encVarint v).length) := by
  have h10 : (encVarint v).length ≤ 10 := by
    refine encVarint_length_le 10 v (by omega) ?_
    have : (128 : Nat) ^ 10 = 1180591620717411303424 := by norm_num
    omega
  have h := readVarint64Go_enc v pre post 0 0 10 (by omega) (by omega) h10
  simpa [readVarint64] using h

theorem readVarint64_enc_at (data pre post : List Nat) (v p : Nat)
    (hdata : data = pre ++ (encVarint v ++ post))
    (hv : v < 18446744073709551616) (hp : p = pre.length) :
    readVarint64 data p = .ok (v, p + (encVarint v).length) := by
  subst hdata
  subst hp
  exact readVarint64_enc v pre post hv

/-! ## Reading back little-endian u64 fields -/

theorem u64LE_split (n : Nat) :
    u64LE n = u32LE (n % 4294967296) ++ u32LE (n / 4294967296) := by
  have hd1 : n / 4294967296 / 256 = n / 1099511627776 := by
    rw [Nat.div_div_eq_div_mul]
  have hd2 : n / 4294967296 / 65536 = n / 281474976710656 := by
    rw [Nat.div_div_eq_div_mul]
  have hd3 : n / 4294967296 / 16777216 = n / 72057594037927936 := by
    rw [Nat.div_div_eq_div_mul]
  simp only [u64LE, u32LE, List.cons_append, List.nil_append, List.cons.injEq, and_true,
    hd1, hd2, hd3]
  omega

theorem readU64LE_append (pre post : List Nat) (n : Nat)
    (hn : n < 18446744073709551616) :
    readU64LE (pre ++ (u64LE n ++ post)) pre.length = n := by
  rw [u64LE_split, readU64LE]
  have hassoc : pre ++ ((u32LE (n % 4294967296) ++ u32LE (n / 4294967296)) ++ post) =
      pre ++ (u32LE (n % 4294967296) ++ (u32LE (n / 4294967296) ++ post)) := by
    simp
  rw [hassoc]
  have h1 : readU32LE (pre ++ (u32LE (n % 4294967296) ++ (u32LE (n / 4294967296) ++ post)))
      pre.length = n % 4294967296 % 4294967296 :=
    readU32LE_append pre _ _
  have hlen4 : (pre ++ u32LE (n % 4294967296)).length = pre.length + 4 := by
    simp [u32LE]
  have hassoc2 : pre ++ (u32LE (n % 4294967296) ++ (u32LE (n / 4294967296) ++ post)) =
      (pre ++ u32LE (n % 4294967296)) ++ (u32LE (n / 4294967296) ++ post) := by
    simp
  have h2 : readU32LE (pre ++ (u32LE (n % 4294967296) ++ (u32LE (n / 4294967296) ++ post)))
      (pre.length + 4) = n / 4294967296 % 4294967296 := by
    rw [← hlen4, hassoc2]
    exact readU32LE_append _ _ _
  rw [h1, h2]
  omega

/-! ## Checksum-type tags -/

theorem tryFrom_tag (ct : ChecksumType) : ChecksumType.tryFrom ct.tag = .ok ct := by
  cases ct <;> rfl

theorem tag_le (ct : ChecksumType) : ct.tag ≤ 4 := by
  cases ct <;> simp [ChecksumType.tag]

theorem footer_encode_v15 (ct : ChecksumType) (a b c d ver : Nat) (offset : Nat)
    (hv5 : ver < 6)
    (hfit : (encVarint a).length + (encVarint b).length +
      ((encVarint c).length + (encVarint d).length) ≤ 36) :
    Footer.encodeToBytes ⟨ct, ⟨a, b⟩, ⟨c, d⟩, ver, none⟩ offset =
      .ok (([ct.tag] ++ (encVarint a ++ encVarint b) ++ (encVarint c ++ encVarint d)) ++
        List.replicate (36 - ((encVarint a).length + (encVarint b).length +
          ((encVarint c).length + (encVarint d).length))) 0 ++
        u32LE (u32Mod ver) ++ u64LE ROCKSDB_MAGIC_NUMBER) := by
  rw [Footer.encodeToBytes]
  rw [if_neg (by dsimp only; omega)]
  dsimp only
  rw [if_neg (by simp only [FOOTER_SIZE, BlockHandle.encode_to, writeVarint64,
    List.length_append, List.length_cons, List.length_nil]; omega)]
  simp only [BlockHandle.encode_to, writeVarint64, FOOTER_SIZE, List.length_append,
    List.length_cons, List.length_nil]
  have hcount : 49 - (0 + 1 + ((encVarint a).length + (encVarint b).length) +
      ((encVarint c).length + (encVarint d).length)) - 12 =
      36 - ((encVarint a).length + (encVarint b).length +
        ((encVarint c).length + (encVarint d).length)) := by omega
  rw [hcount]

theorem exceptOkBind {α β : Type} (x : α) (f : α → Except Err β) :
    Bind.bind (Except.ok x) f = f x := rfl

theorem blockHandle_decodeFrom_enc (data pre post : List Nat) (a b p : Nat)
    (hdata : data = pre ++ (encVarint a ++ (encVarint b ++ post)))
    (ha : a < 18446744073709551616) (hb : b < 18446744073709551616)
    (hp : p = pre.length) :
    BlockHandle.decodeFrom data p =
      .ok (⟨a, b⟩, p + (encVarint a).length + (encVarint b).length) := by
  have h1 : readVarint64 data p = .ok (a, p + (encVarint a).length) :=
    readVarint64_enc_at data pre (encVarint b ++ post) a p (by rw [hdata]) ha hp
  have h2 : readVarint64 data (p + (encVarint a).length) =
      .ok (b, p + (encVarint a).length + (encVarint b).length) := by
    refine readVarint64_enc_at data (pre ++ encVarint a) post b _ ?_ hb ?_
    · rw [hdata]
      simp
    · simp [hp]
  simp only [BlockHandle.decodeFrom, h1, exceptOkBind, h2]

theorem footer_decode_v15 (ct : ChecksumType) (hd1 hd2 : BlockHandle)
    (ver offset p1 p2 : Nat) (body : List Nat) (hbody : body.length = 36)
    (hv1 : 1 ≤ ver) (hv5 : ver < 6)
    (hdec1 : BlockHandle.decodeFrom body 0 = .ok (hd1, p1))
    (hdec2 : BlockHandle.decodeFrom body p1 = .ok (hd2, p2)) :
    Footer.decodeFromBytes
      (ct.tag :: (body ++ (u32LE (u32Mod ver) ++ u64LE ROCKSDB_MAGIC_NUMBER))) offset =
      .ok ⟨ct, hd1, hd2, ver, none⟩ := by
  have hlen : (ct.tag :: (body ++ (u32LE (u32Mod ver) ++
      u64LE ROCKSDB_MAGIC_NUMBER))).length = 49 := by
    simp [u32LE, u64LE, hbody]
  have hmagic : readU64LE (ct.tag :: (body ++ (u32LE (u32Mod ver) ++
      u64LE ROCKSDB_MAGIC_NUMBER))) 41 = ROCKSDB_MAGIC_NUMBER := by
    have hsh : ct.tag :: (body ++ (u32LE (u32Mod ver) ++ u64LE ROCKSDB_MAGIC_NUMBER)) =
        (ct.tag :: (body ++ u32LE (u32Mod ver))) ++ (u64LE ROCKSDB_MAGIC_NUMBER ++ []) := by
      simp
    have hplen : (ct.tag :: (body ++ u32LE (u32Mod ver))).length = 41 := by
      simp [u32LE, hbody]
    rw [hsh, ← hplen]
    exact readU64LE_append _ _ _ (by norm_num [ROCKSDB_MAGIC_NUMBER])
  have hver : readU32LE (ct.tag :: (body ++ (u32LE (u32Mod ver) ++
      u64LE ROCKSDB_MAGIC_NUMBER))) 37 = ver := by
    have hsh : ct.tag :: (body ++ (u32LE (u32Mod ver) ++ u64LE ROCKSDB_MAGIC_NUMBER)) =
        (ct.tag :: body) ++ (u32LE (u32Mod ver) ++ u64LE ROCKSDB_MAGIC_NUMBER) := by
      simp
    have hplen : (ct.tag :: body).length = 37 := by
      simp [hbody]
    rw [hsh, ← hplen, readU32LE_append]
    simp only [u32Mod]
    omega
  have htake : ((ct.tag :: (body ++ (u32LE (u32Mod ver) ++
      u64LE ROCKSDB_MAGIC_NUMBER))).take 37).drop 1 = body := by
    have hsh : ct.tag :: (body ++ (u32LE (u32Mod ver) ++ u64LE ROCKSDB_MAGIC_NUMBER)) =
        (ct.tag :: body) ++ (u32LE (u32Mod ver) ++ u64LE ROCKSDB_MAGIC_NUMBER) := by
      simp
    have hplen : (ct.tag :: body).length = 37 := by
      simp [hbody]
    rw [hsh, ← hplen, List.take_left]
    simp
  have hgd : (ct.tag :: (body ++ (u32LE (u32Mod ver) ++
      u64LE ROCKSDB_MAGIC_NUMBER))).getD 0 0 % 256 = ct.tag := by
    have := tag_le ct
    simp [List.getD]
    omega
  simp only [Footer.decodeFromBytes, hlen]
  rw [if_neg (show ¬ (49 : Nat) < 12 by omega)]
  simp only [show (49 : Nat) - 8 = 41 from rfl, show (49 : Nat) - 12 = 37 from rfl]
  simp only [hmagic]
  have hneq1 : ROCKSDB_MAGIC_NUMBER ≠ LEGACY_MAGIC_NUMBER := by
    norm_num [ROCKSDB_MAGIC_NUMBER, LEGACY_MAGIC_NUMBER]
  rw [if_neg hneq1]
  rw [if_neg (show ¬ ROCKSDB_MAGIC_NUMBER ≠ ROCKSDB_MAGIC_NUMBER by simp)]
  simp only [hver]
  rw [if_neg (show ¬ 6 ≤ ver by omega)]
  simp only [hgd]
  rw [if_pos (show ct.tag ≤ 127 ∧ 1 ≤ ver from ⟨by have := tag_le ct; omega, hv1⟩)]
  rw [tryFrom_tag]
  simp only [htake]
  rw [hdec1]
  dsimp only
  rw [hdec2]

/-- C4 (amended): footer roundtrip for the supported versions 1–5: for any
footer with such a format version, no base context checksum, u64 handles and
handle encodings that fit the 49-byte layout, decoding the encoding at any
offset returns the footer exactly.  (For v6+ the roundtrip fails: see the
counterexample.) -/
theorem footer_roundtrip (f : Footer) (offset : Nat)
    (hv1 : 1 ≤ f.formatVersion) (hv5 : f.formatVersion < 6)
    (hbase : f.baseContextChecksum = none)
    (hmo : f.metaindexHandle.offset < 18446744073709551616)
    (hms : f.metaindexHandle.size < 18446744073709551616)
    (hco : f.indexHandle.offset < 18446744073709551616)
    (hcs : f.indexHandle.size < 18446744073709551616)
    (hfit : (BlockHandle.encode_to f.metaindexHandle).length +
      (BlockHandle.encode_to f.indexHandle).length ≤ 36) :
    (f.encodeToBytes offset).bind (Footer.decodeFromBytes · offset) = .ok f := by
  obtain ⟨ct, ⟨a, b⟩, ⟨c, d⟩, ver, base⟩ := f
  dsimp only at hv1 hv5 hbase hmo hms hco hcs hfit
  simp only [BlockHandle.encode_to, writeVarint64, List.length_append] at hfit
  subst hbase
  have hfit2 : (encVarint a).length + (encVarint b).length +
      ((encVarint c).length + (encVarint d).length) ≤ 36 := by
    omega
  rw [footer_encode_v15 ct a b c d ver offset hv5 hfit2]
  have hbind : ∀ (bs : List Nat), (Except.ok bs : Except Err (List Nat)).bind
      (Footer.decodeFromBytes · offset) = Footer.decodeFromBytes bs offset := fun _ => rfl
  rw [hbind]
  have hshape : ([ct.tag] ++ (encVarint a ++ encVarint b) ++ (encVarint c ++ encVarint d)) ++
      List.replicate (36 - ((encVarint a).length + (encVarint b).length +
        ((encVarint c).length + (encVarint d).length))) 0 ++
      u32LE (u32Mod ver) ++ u64LE ROCKSDB_MAGIC_NUMBER =
      ct.tag :: ((encVarint a ++ (encVarint b ++ (encVarint c ++ (encVarint d ++
        List.replicate (36 - ((encVarint a).length + (encVarint b).length +
          ((encVarint c).length + (encVarint d).length))) 0)))) ++
        (u32LE (u32Mod ver) ++ u64LE ROCKSDB_MAGIC_NUMBER)) := by
    simp [List.append_assoc]
  rw [hshape]
  refine footer_decode_v15 ct ⟨a, b⟩ ⟨c, d⟩ ver offset
    ((encVarint a).length + (encVarint b).length)
    ((encVarint a).length + (encVarint b).length +
      (encVarint c).length + (encVarint d).length) _ ?_ hv1 hv5 ?_ ?_
  · simp only [List.length_append, List.length_replicate]
    omega
  · have h := blockHandle_decodeFrom_enc
      (encVarint a ++ (encVarint b ++ (encVarint c ++ (encVarint d ++
        List.replicate (36 - ((encVarint a).length + (encVarint b).length +
          ((encVarint c).length + (encVarint d).length))) 0))))
      [] (encVarint c ++ (encVarint d ++
        List.replicate (36 - ((encVarint a).length + (encVarint b).length +
          ((encVarint c).length + (encVarint d).length))) 0))
      a b 0 (by simp) hmo hms (by simp)
    simpa using h
  · have h := blockHandle_decodeFrom_enc
      (encVarint a ++ (encVarint b ++ (encVarint c ++ (encVarint d ++
        List.replicate (36 - ((encVarint a).length + (encVarint b).length +
          ((encVarint c).length + (encVarint d).length))) 0))))
      (encVarint a ++ encVarint b)
      (List.replicate (36 - ((encVarint a).length + (encVarint b).length +
        ((encVarint c).length + (encVarint d).length))) 0)
      c d ((encVarint a).length + (encVarint b).length)
      (by simp) hco hcs (by simp)
    simpa using h

theorem stripTrailer (payload rest : List Nat) (hr : rest.length = 5) :
    (if 5 ≤ (payload ++ rest).length then
      (payload ++ rest).take ((payload ++ rest).length - 5) else payload ++ rest) = payload := by
  have hl : (payload ++ rest).length = payload.length + 5 := by
    simp [List.length_append, hr]
  rw [hl, if_pos (by omega)]
  have h5 : payload.length + 5 - 5 = payload.length := by omega
  rw [h5, List.take_left]

/-- C1 (code_bug): the SST end-to-end roundtrip fails.  Writing the single
entry put([97], [49]) through the writer with default options and finishing
produces a file whose read-back through the reader/iterator pipeline errors
instead of yielding the entry: `finish` never commits the pending index entry
for the last data block, and `Footer::read_from` decodes the wrong 53-byte
window (see C5), so the index handle comes back null and the index block
parse fails. -/
theorem sst_roundtrip_failure :
    ((((SstFileWriter.create WriteOptions.default).openFile.bind
        (SstFileWriter.put · [97] [49])).bind SstFileWriter.finish).map
      SstFileWriter.fileBytes).bind (fun file => sstCollectAll file .none) =
    .error (.invalidBlockFormat "Index block too small to contain restart info") := by
  decide

/-- C2 (counterexample): with restart interval 0 the roundtrip does not even
start: the second `DataBlockBuilder::add` violates the
`counter <= restart_interval` assertion (counter is 1 after the first add)
and the Rust process aborts, modelled as `none`.  The spec claims the
roundtrip holds for every restart interval R. -/
theorem block_roundtrip_zero_interval :
    addAll (DataBlockBuilder.new 0) [([97], [49]), ([98], [50])] = none := by
  decide

set_option maxRecDepth 8000 in
/-- C3 (code_bug): the index-block reader clears `last_key` AFTER consuming a
restart entry, not before.  The index builder produces a prefix-compressed
second entry (keys [97] and [97, 98] share one byte), and the reader then
fails on it: having cleared `last_key` after the first (restart) entry, the
`shared = 1` of the second entry exceeds the empty last key.  The data-block
reader, which clears BEFORE consuming (as the spec states), parses the
analogous block fine. -/
theorem index_clear_after_divergence :
    (((IndexBlockBuilder.new 16).addIndexEntry [97] ⟨1, 1⟩).bind
        (·.addIndexEntry [97, 98] ⟨2, 2⟩)).map
      (·.finish .none .crc32c none none) =
      some (.ok [0, 1, 2, 97, 1, 1, 1, 1, 2, 98, 2, 2, 0, 0, 0, 0, 1, 0, 0, 0,
        0, 148, 216, 244, 94]) ∧
    (IndexBlock.new [0, 1, 2, 97, 1, 1, 1, 1, 2, 98, 2, 2, 0, 0, 0, 0, 1, 0, 0, 0,
        0, 148, 216, 244, 94] .none).bind IndexBlock.getEntries =
      .error (.invalidBlockFormat
        "Shared key length exceeds previous key length in index block") ∧
    (((DataBlockBuilder.new 16).add [97] [49]).bind (·.add [97, 98] [50])).map
      (·.finish .none .crc32c none none) =
      some (.ok [0, 1, 1, 97, 49, 1, 1, 1, 98, 50, 0, 0, 0, 0, 1, 0, 0, 0,
        0, 225, 57, 217, 232]) ∧
    (DataBlock.new [0, 1, 1, 97, 49, 1, 1, 1, 98, 50, 0, 0, 0, 0, 1, 0, 0, 0,
        0, 225, 57, 217, 232] .none).bind DataBlock.getEntries =
      .ok [([97], [49]), ([97, 98], [50])] := by
  refine ⟨by decide, by decide, by decide, by decide⟩

/-- C4 (counterexample): a v6 footer does not roundtrip.  Decoding the
encoding of a v6 footer with metaindex handle (0, 16) at file offset 100
returns metaindex offset 79 (= 100 - 5 - 16): `decode_from_bytes` ignores the
stored offset and reconstructs it from `input_offset - 5 - metaindex_size`.
This is not the permitted None→Some(0) base-context-checksum exception. -/
theorem footer_roundtrip_v6_counterexample :
    ((Footer.mk .none ⟨0, 16⟩ ⟨0, 0⟩ 6 (some 287454020)).encodeToBytes 100).bind
      (Footer.decodeFromBytes · 100) =
    .ok ⟨.none, ⟨79, 16⟩, ⟨0, 0⟩, 6, some 287454020⟩ := by
  decide

/-- C4 witness: the amended v1–v5 roundtrip at a concrete footer. -/
theorem footer_roundtrip_witness :
    (1 ≤ (Footer.mk .crc32c ⟨100, 50⟩ ⟨150, 20⟩ 5 none).formatVersion) ∧
    ((Footer.mk .crc32c ⟨100, 50⟩ ⟨150, 20⟩ 5 none).formatVersion < 6) ∧
    ((Footer.mk .crc32c ⟨100, 50⟩ ⟨150, 20⟩ 5 none).baseContextChecksum = none) ∧
    ((BlockHandle.encode_to ⟨100, 50⟩).length + (BlockHandle.encode_to ⟨150, 20⟩).length ≤ 36) ∧
    ((Footer.mk .crc32c ⟨100, 50⟩ ⟨150, 20⟩ 5 none).encodeToBytes 4).bind
      (Footer.decodeFromBytes · 4) = .ok (Footer.mk .crc32c ⟨100, 50⟩ ⟨150, 20⟩ 5 none) :=
  ⟨by decide, by decide, by decide, by decide,
    footer_roundtrip ⟨.crc32c, ⟨100, 50⟩, ⟨150, 20⟩, 5, none⟩ 4
      (by decide) (by decide) (by decide) (by decide) (by decide) (by decide) (by decide)
      (by decide)⟩

/-- C5 (code_bug): `Footer::read_from` always reads the last 53 bytes, even
for a v1–v5 footer that is 49 bytes.  On a file made of 4 junk bytes followed
by a valid 49-byte v5 footer, `read_from` decodes the junk-shifted window
into garbage handles (7, 7)/(7, 7) instead of the stored (100, 50)/(150, 20),
while decoding the actual last 49 bytes yields the correct footer. -/
theorem footer_readfrom_53 :
    ((Footer.mk .crc32c ⟨100, 50⟩ ⟨150, 20⟩ 5 none).encodeToBytes 4).bind
        (fun enc => Footer.readFrom ([7, 7, 7, 7] ++ enc)) =
      .ok ⟨.crc32c, ⟨7, 7⟩, ⟨7, 7⟩, 5, none⟩ ∧
    ((Footer.mk .crc32c ⟨100, 50⟩ ⟨150, 20⟩ 5 none).encodeToBytes 4).bind
        (fun enc => Footer.decodeFromBytes (([7, 7, 7, 7] ++ enc).drop 4) 4) =
      .ok ⟨.crc32c, ⟨100, 50⟩, ⟨150, 20⟩, 5, none⟩ := by
  refine ⟨by decide, by decide⟩

/-- C6 (code_bug): no code path verifies a block trailer checksum, so the
parse result cannot depend on the stored checksum bytes: `DataBlock::new` on
two blocks that differ only in the 4 trailer checksum bytes returns the same
result.  Under the spec, verify_checksums = true (the `ReadOptions` default)
must fail one of the two with DataCorruption. -/
theorem checksum_never_verified (payload : List Nat) (tag : Nat) (c c' : List Nat)
    (hc : c.length = 4) (hc' : c'.length = 4) :
    DataBlock.new (payload ++ tag :: c) .none = DataBlock.new (payload ++ tag :: c') .none := by
  rw [DataBlock.new, DataBlock.new]
  simp only [decompress, exceptOkBind]
  rw [stripTrailer payload (tag :: c) (by simp [hc]),
      stripTrailer payload (tag :: c') (by simp [hc'])]

/-- C6 witness: a valid one-entry block with its CRC32c trailer checksum
replaced by 0xFFFFFFFF parses identically to the intact block. -/
theorem checksum_never_verified_witness :
    ([95, 123, 255, 60] : List Nat).length = 4 ∧
    ([255, 255, 255, 255] : List Nat).length = 4 ∧
    DataBlock.new ([0, 1, 1, 97, 49, 0, 0, 0, 0, 1, 0, 0, 0] ++ 0 :: [95, 123, 255, 60]) .none =
      DataBlock.new ([0, 1, 1, 97, 49, 0, 0, 0, 0, 1, 0, 0, 0] ++ 0 :: [255, 255, 255, 255])
        .none :=
  ⟨rfl, rfl, checksum_never_verified [0, 1, 1, 97, 49, 0, 0, 0, 0, 1, 0, 0, 0] 0
    [95, 123, 255, 60] [255, 255, 255, 255] rfl rfl⟩

/-- C7 (counterexample): the ordering guard is `!last_key.is_empty() && key <=
last_key`, so after an entry with the empty key (last_key stays empty) a
second entry with the same empty key — a violation of k > last_key — is
accepted: both puts succeed and num_entries reaches 2. -/
theorem key_ordering_empty_key_counterexample :
    ((((SstFileWriter.create WriteOptions.default).openFile.bind
        (SstFileWriter.put · [] [49])).bind
        (SstFileWriter.put · [] [50])).map SstFileWriter.numEntries) = .ok 2 := by
  decide

/-- C7 (amended): the writer rejects `add_entry(k, v)` with `k <= last_key`
with InvalidArgument whenever the last accepted key is non-empty (the
counterexample shows the empty-key case escapes the guard). -/
theorem key_ordering_rejects (w : SstFileWriter) (key value : List Nat) (et : EntryType)
    (hfin : w.finished = false) (hopen : w.writerOpen = true)
    (hlk : w.lastKey ≠ []) (hle : bytesLe key w.lastKey = true) :
    w.addEntry key value et =
      .error (.invalidArgument "Keys must be added in strictly increasing order") := by
  rw [SstFileWriter.addEntry]
  rw [if_neg (by simp [hfin])]
  rw [if_neg (by simp [hopen])]
  rw [if_pos (by simp [List.isEmpty_iff, hlk, hle])]

/-- C7 witness: a writer whose last key is [97] rejects a duplicate put of
[97]. -/
theorem key_ordering_rejects_witness :
    ((SstFileWriter.mk WriteOptions.default true [] (DataBlockBuilder.new 16)
        (IndexBlockBuilder.new 16) 0 1 [97] false none).finished = false) ∧
    ((SstFileWriter.mk WriteOptions.default true [] (DataBlockBuilder.new 16)
        (IndexBlockBuilder.new 16) 0 1 [97] false none).writerOpen = true) ∧
    ((SstFileWriter.mk WriteOptions.default true [] (DataBlockBuilder.new 16)
        (IndexBlockBuilder.new 16) 0 1 [97] false none).lastKey ≠ []) ∧
    (bytesLe [97] (SstFileWriter.mk WriteOptions.default true [] (DataBlockBuilder.new 16)
        (IndexBlockBuilder.new 16) 0 1 [97] false none).lastKey = true) ∧
    (SstFileWriter.mk WriteOptions.default true [] (DataBlockBuilder.new 16)
        (IndexBlockBuilder.new 16) 0 1 [97] false none).addEntry [97] [50] .put =
      .error (.invalidArgument "Keys must be added in strictly increasing order") :=
  ⟨rfl, rfl, by decide, by decide,
    key_ordering_rejects (SstFileWriter.mk WriteOptions.default true []
        (DataBlockBuilder.new 16) (IndexBlockBuilder.new 16) 0 1 [97] false none)
      [97] [50] .put rfl rfl (by decide) (by decide)⟩

/-- C8 (counterexample): `add_index_entry` encodes the handle through the
u32 varint encoder after `as u32` casts, so a handle with offset 2^32 is
truncated to offset 0: the value bytes are [0, 1] while `BlockHandle::encode_to`
yields the 64-bit encoding [128, 128, 128, 128, 16, 1]. -/
theorem index_value_encoding_truncation :
    IndexBlockBuilder.handleData ⟨4294967296, 1⟩ = [0, 1] ∧
    BlockHandle.encode_to ⟨4294967296, 1⟩ = [128, 128, 128, 128, 16, 1] := by
  constructor
  · decide
  · have h1 : encVarint 4294967296 = [128, 128, 128, 128, 16] := by
      rw [encVarint_unfold]
      norm_num
      rw [encVarint_unfold]
      norm_num
      rw [encVarint_unfold]
      norm_num
      rw [encVarint_unfold]
      norm_num
      rw [encVarint_unfold]
      norm_num
    show writeVarint64 4294967296 ++ writeVarint64 1 = _
    rw [writeVarint64, writeVarint64, h1]
    decide

/-- C8 (amended): the index entry value bytes equal the BlockHandle encoding
exactly when both offset and size fit in u32; the u64 claim fails (see the
counterexample). -/
theorem index_value_encoding (h : BlockHandle)
    (ho : h.offset < 4294967296) (hs : h.size < 4294967296) :
    IndexBlockBuilder.handleData h = BlockHandle.encode_to h := by
  rw [IndexBlockBuilder.handleData, BlockHandle.encode_to, writeVarint64, writeVarint64]
  simp only [u32Mod]
  rw [Nat.mod_eq_of_lt ho, Nat.mod_eq_of_lt hs]

/-- C8 witness: the amended equality at the handle (5, 7). -/
theorem index_value_encoding_witness :
    ((BlockHandle.mk 5 7).offset < 4294967296) ∧ ((BlockHandle.mk 5 7).size < 4294967296) ∧
    IndexBlockBuilder.handleData ⟨5, 7⟩ = BlockHandle.encode_to ⟨5, 7⟩ :=
  ⟨by decide, by decide, index_value_encoding ⟨5, 7⟩ (by decide) (by decide)⟩

/-- C9 (counterexample): an index block whose restart count field is zero
does NOT fail: `IndexBlock::new` falls back to a lenient single-restart
interpretation and returns Ok, against the spec's claim that a zero restart
count is InvalidBlockFormat for both block kinds. -/
theorem restart_count_zero_index_ok :
    IndexBlock.new [0, 0, 0, 0, 0, 0, 0, 0, 0] .none = .ok ⟨[0, 0, 0, 0], 4, 1, [0]⟩ := by
  decide

/-- C9 (amended): a zero restart count is rejected by the data-block parser
with InvalidBlockFormat, but the index-block parser instead falls back to
Ok with a synthetic single restart point at 0. -/
theorem restart_count_validation (payload trailer : List Nat)
    (htr : trailer.length = 5) (hlen : 4 ≤ payload.length)
    (hzero : readU32LE payload (payload.length - 4) = 0) :
    DataBlock.new (payload ++ trailer) .none =
      .error (.invalidBlockFormat "No restart points") ∧
    IndexBlock.new (payload ++ trailer) .none =
      .ok ⟨payload, payload.length, 1, [0]⟩ := by
  constructor
  · rw [DataBlock.new]
    simp only [decompress, exceptOkBind]
    rw [stripTrailer payload trailer htr]
    rw [if_neg (by omega)]
    rw [hzero]
    rw [if_pos rfl]
  · rw [IndexBlock.new]
    simp only [decompress, exceptOkBind]
    rw [stripTrailer payload trailer htr]
    rw [if_neg (by omega)]
    rw [hzero]
    rw [if_pos (by left; rfl)]

/-- C9 witness: the amended statement at the 4-byte zero payload. -/
theorem restart_count_validation_witness :
    (([0, 0, 0, 0, 0] : List Nat).length = 5) ∧
    (4 ≤ ([0, 0, 0, 0] : List Nat).length) ∧
    (readU32LE [0, 0, 0, 0] (([0, 0, 0, 0] : List Nat).length - 4) = 0) ∧
    (DataBlock.new ([0, 0, 0, 0] ++ [0, 0, 0, 0, 0]) .none =
      .error (.invalidBlockFormat "No restart points") ∧
     IndexBlock.new ([0, 0, 0, 0] ++ [0, 0, 0, 0, 0]) .none =
      .ok ⟨[0, 0, 0, 0], 4, 1, [0]⟩) :=
  ⟨rfl, by decide, by decide,
    restart_count_validation [0, 0, 0, 0] [0, 0, 0, 0, 0] rfl (by decide) (by decide)⟩

set_option maxRecDepth 8000 in
/-- C10 (confirmed): for every write configuration the metaindex block is the
fixed 13 bytes [0,0,0,0, 1,0,0,0, 0, 0,0,0,0]: a restart array [0] with
count 1 and zero entries, a None compression tag (byte 8) regardless of the
configured compression, and a zero trailer checksum (bytes 9..12) rather than
a computed digest; `finish` emits exactly these bytes as the metaindex block
(at offset 13 of an empty default-options file). -/
theorem metaindex_constant_block (opts : WriteOptions) :
    SstFileWriter.createEmptyMetaindexBlock opts =
      [0, 0, 0, 0, 1, 0, 0, 0, 0, 0, 0, 0, 0] ∧
    (SstFileWriter.createEmptyMetaindexBlock opts).length = 13 ∧
    (SstFileWriter.createEmptyMetaindexBlock opts).getD 8 0 = CompressionType.none.tag ∧
    (SstFileWriter.createEmptyMetaindexBlock opts).drop 9 = [0, 0, 0, 0] ∧
    (DataBlock.new [0, 0, 0, 0, 1, 0, 0, 0, 0, 0, 0, 0, 0] .none).bind
      DataBlock.getEntries = .ok [] ∧
    (((SstFileWriter.create WriteOptions.default).openFile.bind SstFileWriter.finish).map
      (fun w => (w.fileBytes.drop 13).take 13)) =
      .ok [0, 0, 0, 0, 1, 0, 0, 0, 0, 0, 0, 0, 0] :=
  ⟨rfl, rfl, rfl, rfl, by decide, by decide⟩

/-- C2 witness: the amended block roundtrip at L = [([97], [49]),
([97, 98], [50])] and restart interval 16. -/
theorem block_roundtrip_witness :
    (1 ≤ 16) ∧
    ([([97], [49]), ([97, 98], [50])] : List (List Nat × List Nat)).Chain'
      (fun a b => bytesCompare a.1 b.1 = .lt) ∧
    (∀ p ∈ ([([97], [49]), ([97, 98], [50])] : List (List Nat × List Nat)),
      p.1.length < 4294967296 ∧ p.2.length < 4294967296) ∧
    (chunksBytes (chunksOf 16 0 [] [([97], [49]), ([97, 98], [50])])).length < 4294967295 ∧
    (∃ b bytes,
      addAll (DataBlockBuilder.new 16) [([97], [49]), ([97, 98], [50])] = some b ∧
      b.finish .none .crc32c none none = .ok bytes ∧
      (DataBlock.new bytes .none).bind DataBlock.getEntries =
        .ok [([97], [49]), ([97, 98], [50])]) :=
  ⟨by decide,
    by simp only [List.chain'_cons, List.chain'_singleton, and_true]; decide,
    by decide, by decide,
    block_roundtrip [([97], [49]), ([97, 98], [50])] 16 .crc32c none none
      (by decide)
      (by simp only [List.chain'_cons, List.chain'_singleton, and_true]; decide)
      (by decide) (by decide)⟩

end RocksDbFF
